import Mathlib

/-!
Shallow embedding of the `LimitOrderManager` class (file `src/unnamed/part_006`,
`class LimitOrderManager`).  Decimal.js values are modelled as rationals (all
operations the code performs on them here — comparisons and copies — are exact),
JS `Date` timestamps as natural numbers, and the two nested `Map`s
(`orders : userId → (orderId → order)`, `orderHistory : userId → array`) as
association lists keyed by user id whose per-user order lists are kept in
insertion order, which is exactly the iteration order of a JS `Map`.
Mutation of order objects becomes explicit state passing on a `Manager` value.
Functions that call `new Date()` take an explicit `now : Nat` argument.
The execution callback `executeFn` becomes `ExecFn`; a thrown JS error is
modelled as `Except.error` carrying the message.
-/

namespace LimitOrder

/-- The five values the source assigns to `order.status`. -/
inductive OStatus where
  | pending
  | filled
  | cancelled
  | expired
  | failed
deriving DecidableEq, Repr

/-- One order record, with the fields `createOrder` initialises plus the fields
other methods attach later (`isTrailing`, `trailAmount`, `trailPercent`,
`highestPrice` from `createTrailingStop`; `linkedOrderId` from `createOCO`;
`failReason`, `cancelledAt`, `updatedAt` from `checkOrders` / `cancelOrder` /
`updateOrder`).  The `partialFills` array is initialised to `[]` by the source
and never read or written afterwards, so it is omitted.  The JS `type` field is
an arbitrary string — the source never validates it. -/
structure Order where
  id : Nat
  userId : String
  type : String
  asset : String
  amount : ℚ
  limitPrice : ℚ
  currentPrice : Option ℚ
  stopLoss : Option ℚ
  takeProfit : Option ℚ
  expiresAt : Option Nat
  status : OStatus
  createdAt : Nat
  filledAt : Option Nat
  filledPrice : Option ℚ
  filledAmount : ℚ
  isTrailing : Bool
  trailAmount : Option ℚ
  trailPercent : Option ℚ
  highestPrice : Option ℚ
  linkedOrderId : Option Nat
  failReason : Option String
  cancelledAt : Option Nat
  updatedAt : Option Nat
deriving DecidableEq, Repr

/-- One element of the `executed` array returned by `checkOrders`:
`{ orderId, order, reason, result }`.  The `order` field is the order object
after the fill mutation (the JS array stores a reference to the mutated
object).  The opaque result of the execution callback is modelled as a
string. -/
structure ExecEntry where
  orderId : Nat
  order : Order
  reason : String
  result : String
deriving DecidableEq, Repr

/-- The external execution callback; a thrown error is `Except.error msg`. -/
def ExecFn : Type := Order → ℚ → Except String String

/-- The state of a `LimitOrderManager` instance: `this.orders`,
`this.orderHistory`, `this.nextOrderId`.  History entries are stored as order
snapshots (the source stores a spread copy of the order with the Decimal
fields rendered to strings; the rendering is injective on the values used, so
the snapshot model is faithful). -/
structure Manager where
  orders : List (String × List Order)
  orderHistory : List (String × List Order)
  nextOrderId : Nat
deriving DecidableEq, Repr

/-- `Map.get` on a map modelled as an association list. -/
def alookup {α : Type} (l : List (String × α)) (k : String) : Option α :=
  (l.find? (fun p => p.1 == k)).map (fun p => p.2)

/-- `Map.set` on a map modelled as an association list: replace the binding if
the key is present, append it otherwise. -/
def aset {α : Type} (l : List (String × α)) (k : String) (v : α) : List (String × α) :=
  match l with
  | [] => [(k, v)]
  | p :: rest => if p.1 == k then (k, v) :: rest else p :: aset rest k v

/-- JS truthiness conversion `x ? new Decimal(x) : null` applied to an optional
numeric config field: the number `0` is falsy and becomes `null`. -/
def truthyQ : Option ℚ → Option ℚ
  | some v => if v = 0 then none else some v
  | none => none

/-- JS truthiness conversion `config.expiresAt || null` for the timestamp
field (the numeric timestamp `0` is falsy). -/
def truthyN : Option Nat → Option Nat
  | some v => if v = 0 then none else some v
  | none => none

/-- The argument object of `createOrder`.  `amount` and `limitPrice` are passed
unconditionally to the `Decimal` constructor, so they are required fields; the
remaining fields go through the truthiness conversions above. -/
structure OrderConfig where
  type : String
  asset : String
  amount : ℚ
  limitPrice : ℚ
  currentPrice : Option ℚ
  stopLoss : Option ℚ
  takeProfit : Option ℚ
  expiresAt : Option Nat
deriving DecidableEq, Repr

/-- `createOrder(userId, config)`: builds the order record, inserts it into the
per-user map (creating the map on first use) and increments `nextOrderId`.
The source performs no validation whatsoever on the config. -/
def createOrder (st : Manager) (uid : String) (cfg : OrderConfig) (now : Nat) :
    Order × Manager :=
  let oid := st.nextOrderId
  let o : Order :=
    { id := oid
      userId := uid
      type := cfg.type
      asset := cfg.asset
      amount := cfg.amount
      limitPrice := cfg.limitPrice
      currentPrice := truthyQ cfg.currentPrice
      stopLoss := truthyQ cfg.stopLoss
      takeProfit := truthyQ cfg.takeProfit
      expiresAt := truthyN cfg.expiresAt
      status := OStatus.pending
      createdAt := now
      filledAt := none
      filledPrice := none
      filledAmount := 0
      isTrailing := false
      trailAmount := none
      trailPercent := none
      highestPrice := none
      linkedOrderId := none
      failReason := none
      cancelledAt := none
      updatedAt := none }
  (o, { st with
          nextOrderId := oid + 1
          orders := aset st.orders uid (((alookup st.orders uid).getD []) ++ [o]) })

/-- `order.expiresAt && new Date() > order.expiresAt` (a `Date` object is
always truthy, so the guard is just presence of the field). -/
def expiredNow (o : Order) (now : Nat) : Bool :=
  match o.expiresAt with
  | some t => decide (t < now)
  | none => false

/-- The limit-price condition of `checkOrders`: buy fires when
`price ≤ limitPrice`, sell when `price ≥ limitPrice`. -/
def limitCond (o : Order) (p : ℚ) : Bool :=
  (o.type == "buy" && decide (p ≤ o.limitPrice)) ||
  (o.type == "sell" && decide (o.limitPrice ≤ p))

/-- The stop-loss condition of `checkOrders`: guarded by
`order.stopLoss && order.currentPrice` (both are Decimal objects or null, so
the guard is presence of both fields), then `sell` and `price ≤ stopLoss`. -/
def stopCond (o : Order) (p : ℚ) : Bool :=
  match o.stopLoss, o.currentPrice with
  | some sl, some _ => o.type == "sell" && decide (p ≤ sl)
  | _, _ => false

/-- The take-profit condition of `checkOrders`: guarded by
`order.takeProfit && order.currentPrice`, then `sell` and
`price ≥ takeProfit`. -/
def tpCond (o : Order) (p : ℚ) : Bool :=
  match o.takeProfit, o.currentPrice with
  | some tp, some _ => o.type == "sell" && decide (tp ≤ p)
  | _, _ => false

/-- The accumulated `shouldExecute` flag after the three sequential checks. -/
def shouldExec (o : Order) (p : ℚ) : Bool :=
  limitCond o p || stopCond o p || tpCond o p

/-- The accumulated `reason` string (each later check overwrites the earlier
one, so the last satisfied condition wins). -/
def execReason (o : Order) (p : ℚ) : String :=
  if tpCond o p then "Take profit triggered"
  else if stopCond o p then "Stop loss triggered"
  else if limitCond o p && o.type == "buy" then "Limit price reached (buy)"
  else if limitCond o p then "Limit price reached (sell)"
  else ""

/-- The fill mutation applied on execution success. -/
def fillOrder (o : Order) (p : ℚ) (now : Nat) : Order :=
  { o with
      status := OStatus.filled
      filledAt := some now
      filledPrice := some p
      filledAmount := o.amount }

/-- The mutation applied when the execution callback throws. -/
def failOrder (o : Order) (msg : String) : Order :=
  { o with status := OStatus.failed, failReason := some msg }

/-- The mutation applied on expiration. -/
def expireOrder (o : Order) : Order :=
  { o with status := OStatus.expired }

/-- One iteration of the `checkOrders` loop for a single order.  Returns
(the order as it remains in the per-user map, or `none` if it was deleted;
the entry pushed onto `executed`, if any; the order snapshot passed to
`recordHistory`, if any).  The loop body touches no state other than the
current order, `executed` and the history, so the loop is this function
mapped over the orders in map-iteration order. -/
def processOrder (asset : String) (p : ℚ) (now : Nat) (f : ExecFn) (o : Order) :
    Option Order × Option ExecEntry × Option Order :=
  if o.asset ≠ asset ∨ o.status ≠ OStatus.pending then (some o, none, none)
  else if expiredNow o now then
    (some (expireOrder o), none, some (expireOrder o))
  else if shouldExec o p then
    match f o p with
    | Except.ok r =>
        (none, some ⟨o.id, fillOrder o p now, execReason o p, r⟩, some (fillOrder o p now))
    | Except.error msg => (some (failOrder o msg), none, none)
  else (some o, none, none)

/-- `recordHistory(userId, order)` on the per-user history array: push, then
keep only the last 1000 entries (`history.slice(-1000)`). -/
def recordHistory (h : List Order) (o : Order) : List Order :=
  let h2 := h ++ [o]
  if 1000 < h2.length then h2.drop (h2.length - 1000) else h2

/-- `checkOrders(userId, asset, currentPrice, executeFn)`.  Returns the
`executed` array and the new state.  The history map is only touched when at
least one order was archived (`recordHistory` creates the user's array on its
first call). -/
def checkOrders (st : Manager) (uid asset : String) (p : ℚ) (now : Nat) (f : ExecFn) :
    List ExecEntry × Manager :=
  match alookup st.orders uid with
  | none => ([], st)
  | some os =>
      let results := os.map (processOrder asset p now f)
      let newOs := results.filterMap (fun r => r.1)
      let executed := results.filterMap (fun r => r.2.1)
      let archived := results.filterMap (fun r => r.2.2)
      let newHist := archived.foldl recordHistory ((alookup st.orderHistory uid).getD [])
      (executed,
        { st with
            orders := aset st.orders uid newOs
            orderHistory :=
              if archived.isEmpty then st.orderHistory
              else aset st.orderHistory uid newHist })

/-- The relation by which `getActiveOrders` sorts:
`(a, b) => b.createdAt - a.createdAt`, i.e. descending `createdAt` (JS
`Array.prototype.sort` is stable, as is `List.insertionSort`). -/
def createdDesc (a b : Order) : Prop := b.createdAt ≤ a.createdAt

instance : DecidableRel createdDesc := fun a b => Nat.decLe b.createdAt a.createdAt

instance : IsTotal Order createdDesc :=
  ⟨fun a b => (Nat.le_total b.createdAt a.createdAt).elim Or.inl Or.inr⟩

instance : IsTrans Order createdDesc :=
  ⟨fun _ _ _ h1 h2 => Nat.le_trans h2 h1⟩

/-- `getActiveOrders(userId, asset)`: the user's orders filtered to `pending`,
filtered by asset when one is given, sorted by `createdAt` descending. -/
def getActiveOrders (st : Manager) (uid : String) (asset : Option String) : List Order :=
  match alookup st.orders uid with
  | none => []
  | some os =>
      List.insertionSort createdDesc
        ((os.filter (fun o => o.status == OStatus.pending)).filter
          (fun o => asset.isNone || asset == some o.asset))

/-- `getOrder(userId, orderId)`. -/
def getOrder (st : Manager) (uid : String) (oid : Nat) : Option Order :=
  (alookup st.orders uid).bind (fun os => os.find? (fun o => o.id == oid))

/-- `Map.delete(orderId)` on a per-user order list. -/
def deleteById (os : List Order) (oid : Nat) : List Order :=
  os.filterMap (fun x => if x.id == oid then none else some x)

/-- `cancelOrder(userId, orderId)`: only an existing, owned, `pending` order is
cancelled; the cancelled snapshot is archived and the order deleted from the
map. -/
def cancelOrder (st : Manager) (uid : String) (oid : Nat) (now : Nat) :
    Bool × Manager :=
  match alookup st.orders uid with
  | none => (false, st)
  | some os =>
      match os.find? (fun o => o.id == oid) with
      | none => (false, st)
      | some o =>
          if o.status ≠ OStatus.pending then (false, st)
          else
            let o2 := { o with status := OStatus.cancelled, cancelledAt := some now }
            (true,
              { st with
                  orders := aset st.orders uid (deleteById os oid)
                  orderHistory :=
                    aset st.orderHistory uid
                      (recordHistory ((alookup st.orderHistory uid).getD []) o2) })

/-- The per-order guard of the `cancelAllOrders` loop: skip non-pending orders
and, when an asset filter is given, orders on other assets. -/
def cancelTarget (asset : Option String) (o : Order) : Bool :=
  o.status == OStatus.pending && (asset.isNone || asset == some o.asset)

/-- `cancelAllOrders(userId, asset)`: cancels every matching pending order,
archiving each, and returns the count. -/
def cancelAllOrders (st : Manager) (uid : String) (asset : Option String) (now : Nat) :
    Nat × Manager :=
  match alookup st.orders uid with
  | none => (0, st)
  | some os =>
      let targets := os.filter (cancelTarget asset)
      let remaining := os.filterMap (fun o => if cancelTarget asset o then none else some o)
      let newHist :=
        (targets.map (fun o => { o with status := OStatus.cancelled, cancelledAt := some now })).foldl
          recordHistory ((alookup st.orderHistory uid).getD [])
      (targets.length,
        { st with
            orders := aset st.orders uid remaining
            orderHistory :=
              if targets.isEmpty then st.orderHistory
              else aset st.orderHistory uid newHist })

/-- The argument object of `updateOrder`.  Outer `none` models an absent
(`undefined`) property; for `stopLoss`/`takeProfit`/`expiresAt` the code
distinguishes `undefined` (skip) from a present falsy value (assign null), so
those carry a nested option. -/
structure OrderUpdates where
  limitPrice : Option ℚ
  amount : Option ℚ
  stopLoss : Option (Option ℚ)
  takeProfit : Option (Option ℚ)
  expiresAt : Option (Option Nat)
deriving DecidableEq, Repr

/-- The field mutations of `updateOrder` (`if (updates.limitPrice)` is a
truthiness test, so a present `0` is skipped; `updates.stopLoss !== undefined`
assigns through the `x ? Decimal : null` conversion; `updates.expiresAt` is
assigned verbatim). -/
def applyUpdates (u : OrderUpdates) (now : Nat) (o : Order) : Order :=
  let o1 := match u.limitPrice with
            | some v => if v = 0 then o else { o with limitPrice := v }
            | none => o
  let o2 := match u.amount with
            | some v => if v = 0 then o1 else { o1 with amount := v }
            | none => o1
  let o3 := match u.stopLoss with
            | some inner => { o2 with stopLoss := truthyQ inner }
            | none => o2
  let o4 := match u.takeProfit with
            | some inner => { o3 with takeProfit := truthyQ inner }
            | none => o3
  let o5 := match u.expiresAt with
            | some inner => { o4 with expiresAt := inner }
            | none => o4
  { o5 with updatedAt := some now }

/-- `updateOrder(userId, orderId, updates)`: mutates the fields only while the
order is `pending`; otherwise reports failure (`none`) and leaves the state
untouched. -/
def updateOrder (st : Manager) (uid : String) (oid : Nat) (u : OrderUpdates) (now : Nat) :
    Option Order × Manager :=
  match getOrder st uid oid with
  | none => (none, st)
  | some o =>
      if o.status ≠ OStatus.pending then (none, st)
      else
        let o2 := applyUpdates u now o
        (some o2,
          { st with
              orders := aset st.orders uid
                (((alookup st.orders uid).getD []).map (fun x => if x.id == oid then o2 else x)) })

/-- `createOCO(userId, asset, amount, limitPrice, stopPrice, executeFn)`:
creates a buy limit order and a sell order with `limitPrice = stopPrice` and
`stopLoss = stopPrice`, then links them symmetrically.  The `executeFn`
argument of the source is never used by the method and is omitted. -/
def createOCO (st : Manager) (uid asset : String) (amount limitPrice stopPrice : ℚ)
    (now : Nat) : (Order × Order) × Manager :=
  let r1 := createOrder st uid ⟨"buy", asset, amount, limitPrice, none, none, none, none⟩ now
  let r2 := createOrder r1.2 uid ⟨"sell", asset, amount, stopPrice, none, some stopPrice, none, none⟩ now
  let buy2 := { r1.1 with linkedOrderId := some r2.1.id }
  let stop2 := { r2.1 with linkedOrderId := some r1.1.id }
  ((buy2, stop2),
    { r2.2 with
        orders := aset r2.2.orders uid
          (((alookup r2.2.orders uid).getD []).map
            (fun x => if x.id == r1.1.id then buy2 else if x.id == r2.1.id then stop2 else x)) })

/-- `createTrailingStop(userId, asset, amount, trailAmount, trailPercent)`:
creates a sell order with `limitPrice = 0` (the comment in the source says the
price "will be calculated dynamically", but no other code ever recomputes it)
and attaches the trailing fields. -/
def createTrailingStop (st : Manager) (uid asset : String) (amount : ℚ)
    (trailAmount trailPercent : Option ℚ) (now : Nat) : Order × Manager :=
  let r1 := createOrder st uid ⟨"sell", asset, amount, 0, none, none, none, none⟩ now
  let o2 := { r1.1 with
                isTrailing := true
                trailAmount := truthyQ trailAmount
                trailPercent := truthyQ trailPercent
                highestPrice := (none : Option ℚ) }
  (o2,
    { r1.2 with
        orders := aset r1.2.orders uid
          (((alookup r1.2.orders uid).getD []).map (fun x => if x.id == r1.1.id then o2 else x)) })

end LimitOrder

namespace LimitOrder

/-! ### Association-list lemmas -/

theorem alookup_cons_self {α : Type} (k : String) (v : α) (l : List (String × α)) :
    alookup ((k, v) :: l) k = some v := by
  simp [alookup, List.find?_cons_of_pos]

theorem alookup_cons_ne {α : Type} {k k' : String} (h : k ≠ k') (v : α)
    (l : List (String × α)) : alookup ((k, v) :: l) k' = alookup l k' := by
  simp [alookup, List.find?_cons_of_neg, h]

theorem alookup_aset_self {α : Type} (l : List (String × α)) (k : String) (v : α) :
    alookup (aset l k v) k = some v := by
  induction l with
  | nil => simp [aset, alookup_cons_self]
  | cons p rest ih =>
      by_cases h : p.1 = k
      · simp [aset, h, alookup_cons_self]
      · have hb : (p.1 == k) = false := beq_eq_false_iff_ne.mpr h
        simp only [aset, hb, Bool.false_eq_true, if_false]
        rw [← ih]
        obtain ⟨p1, p2⟩ := p
        exact alookup_cons_ne h p2 _

theorem alookup_aset_ne {α : Type} {k k' : String} (h : k ≠ k') (l : List (String × α))
    (v : α) : alookup (aset l k v) k' = alookup l k' := by
  induction l with
  | nil => simp [aset, alookup_cons_ne h]
  | cons p rest ih =>
      obtain ⟨p1, p2⟩ := p
      by_cases hp : p1 = k
      · subst hp
        simp only [aset, beq_self_eq_true, if_true]
        rw [alookup_cons_ne h, alookup_cons_ne h]
      · have hb : (p1 == k) = false := beq_eq_false_iff_ne.mpr hp
        simp only [aset, hb, Bool.false_eq_true, if_false]
        by_cases hq : p1 = k'
        · subst hq
          rw [alookup_cons_self, alookup_cons_self]
        · rw [alookup_cons_ne hq, alookup_cons_ne hq, ih]

theorem aset_of_alookup {α : Type} {l : List (String × α)} {k : String} {v : α}
    (h : alookup l k = some v) : aset l k v = l := by
  induction l with
  | nil => simp [alookup] at h
  | cons p rest ih =>
      obtain ⟨p1, p2⟩ := p
      by_cases hp : p1 = k
      · subst hp
        rw [alookup_cons_self] at h
        obtain rfl : p2 = v := by injection h
        simp [aset]
      · have hb : (p1 == k) = false := beq_eq_false_iff_ne.mpr hp
        rw [alookup_cons_ne hp] at h
        simp only [aset, hb, Bool.false_eq_true, if_false]
        rw [ih h]

theorem mem_aset {α : Type} {l : List (String × α)} {k : String} {v : α}
    {q : String × α} (h : q ∈ aset l k v) : q = (k, v) ∨ q ∈ l := by
  induction l with
  | nil =>
      simp only [aset, List.mem_singleton] at h
      exact Or.inl h
  | cons p rest ih =>
      by_cases hp : p.1 = k
      · have hb : (p.1 == k) = true := beq_iff_eq.mpr hp
        simp only [aset, hb, if_true, List.mem_cons] at h
        rcases h with h | h
        · exact Or.inl h
        · exact Or.inr (List.mem_cons_of_mem _ h)
      · have hb : (p.1 == k) = false := beq_eq_false_iff_ne.mpr hp
        simp only [aset, hb, Bool.false_eq_true, if_false, List.mem_cons] at h
        rcases h with h | h
        · exact Or.inr (h ▸ List.mem_cons_self _ _)
        · rcases ih h with h2 | h2
          · exact Or.inl h2
          · exact Or.inr (List.mem_cons_of_mem _ h2)

theorem alookup_mem {α : Type} {l : List (String × α)} {k : String} {v : α}
    (h : alookup l k = some v) : (k, v) ∈ l := by
  unfold alookup at h
  cases hf : l.find? (fun p => p.1 == k) with
  | none => rw [hf] at h; simp at h
  | some q =>
      rw [hf] at h
      have hq0 := List.find?_some hf
      have hq : q.1 = k := by simpa using hq0
      have hm : q ∈ l := List.mem_of_find?_eq_some hf
      obtain ⟨q1, q2⟩ := q
      obtain rfl : q2 = v := by simpa using h
      rwa [show q1 = k from hq] at hm

end LimitOrder

namespace LimitOrder

/-! ### `processOrder` branch lemmas -/

theorem processOrder_stale {asset : String} {p : ℚ} {now : Nat} {f : ExecFn} {o : Order}
    (h : o.asset ≠ asset ∨ o.status ≠ OStatus.pending) :
    processOrder asset p now f o = (some o, none, none) := by
  unfold processOrder
  rw [if_pos h]

theorem processOrder_expires {asset : String} {p : ℚ} {now : Nat} {f : ExecFn} {o : Order}
    (h1 : o.asset = asset) (h2 : o.status = OStatus.pending)
    (h3 : expiredNow o now = true) :
    processOrder asset p now f o = (some (expireOrder o), none, some (expireOrder o)) := by
  unfold processOrder
  rw [if_neg (by simp [h1, h2]), if_pos h3]

theorem processOrder_fire_ok {asset : String} {p : ℚ} {now : Nat} {f : ExecFn} {o : Order}
    {r : String} (h1 : o.asset = asset) (h2 : o.status = OStatus.pending)
    (h3 : expiredNow o now = false) (h4 : shouldExec o p = true)
    (h5 : f o p = Except.ok r) :
    processOrder asset p now f o =
      (none, some ⟨o.id, fillOrder o p now, execReason o p, r⟩, some (fillOrder o p now)) := by
  unfold processOrder
  rw [if_neg (by simp [h1, h2]), if_neg (by simp [h3]), if_pos h4, h5]

theorem processOrder_fire_err {asset : String} {p : ℚ} {now : Nat} {f : ExecFn} {o : Order}
    {msg : String} (h1 : o.asset = asset) (h2 : o.status = OStatus.pending)
    (h3 : expiredNow o now = false) (h4 : shouldExec o p = true)
    (h5 : f o p = Except.error msg) :
    processOrder asset p now f o = (some (failOrder o msg), none, none) := by
  unfold processOrder
  rw [if_neg (by simp [h1, h2]), if_neg (by simp [h3]), if_pos h4, h5]

theorem processOrder_no_fire {asset : String} {p : ℚ} {now : Nat} {f : ExecFn} {o : Order}
    (h3 : expiredNow o now = false) (h4 : shouldExec o p = false) :
    processOrder asset p now f o = (some o, none, none) := by
  unfold processOrder
  by_cases h : o.asset ≠ asset ∨ o.status ≠ OStatus.pending
  · rw [if_pos h]
  · rw [if_neg h, if_neg (by simp [h3]), if_neg (by simp [h4])]

/-- The order kept in the map by one loop iteration has the same id as the
input, and its status either is unchanged or went from `pending` to
`expired` or `failed` (a fill removes the order from the map instead). -/
theorem processOrder_keep {asset : String} {p : ℚ} {now : Nat} {f : ExecFn} {o o2 : Order}
    (h : (processOrder asset p now f o).1 = some o2) :
    o2.id = o.id ∧
      (o2.status = o.status ∨
        (o.status = OStatus.pending ∧
          (o2.status = OStatus.expired ∨ o2.status = OStatus.failed))) := by
  unfold processOrder at h
  by_cases hg : o.asset ≠ asset ∨ o.status ≠ OStatus.pending
  · rw [if_pos hg] at h
    obtain rfl : o = o2 := by injection h
    exact ⟨rfl, Or.inl rfl⟩
  · rw [if_neg hg] at h
    have hpend : o.status = OStatus.pending := by
      rcases not_or.mp hg with ⟨_, h2⟩
      exact not_not.mp h2
    by_cases he : expiredNow o now = true
    · rw [if_pos he] at h
      obtain rfl : expireOrder o = o2 := by injection h
      exact ⟨rfl, Or.inr ⟨hpend, Or.inl rfl⟩⟩
    · rw [if_neg he] at h
      by_cases hs : shouldExec o p = true
      · rw [if_pos hs] at h
        cases hf : f o p with
        | ok r => rw [hf] at h; simp at h
        | error msg =>
            rw [hf] at h
            obtain rfl : failOrder o msg = o2 := by injection h
            exact ⟨rfl, Or.inr ⟨hpend, Or.inr rfl⟩⟩
      · rw [if_neg hs] at h
        obtain rfl : o = o2 := by injection h
        exact ⟨rfl, Or.inl rfl⟩

/-- The `executed` entry produced by one loop iteration carries the id of the
order that produced it. -/
theorem processOrder_exec_id {asset : String} {p : ℚ} {now : Nat} {f : ExecFn} {o : Order}
    {e : ExecEntry} (h : (processOrder asset p now f o).2.1 = some e) :
    e.orderId = o.id := by
  unfold processOrder at h
  by_cases hg : o.asset ≠ asset ∨ o.status ≠ OStatus.pending
  · rw [if_pos hg] at h; simp at h
  · rw [if_neg hg] at h
    by_cases he : expiredNow o now = true
    · rw [if_pos he] at h; simp at h
    · rw [if_neg he] at h
      by_cases hs : shouldExec o p = true
      · rw [if_pos hs] at h
        cases hf : f o p with
        | ok r =>
            rw [hf] at h
            obtain rfl : (⟨o.id, fillOrder o p now, execReason o p, r⟩ : ExecEntry) = e := by
              injection h
            rfl
        | error msg => rw [hf] at h; simp at h
      · rw [if_neg hs] at h; simp at h

/-! ### `find?` lemmas -/

theorem find?_append_some {α : Type} {q : α → Bool} {l1 l2 : List α} {a : α}
    (h : l1.find? q = some a) : (l1 ++ l2).find? q = some a := by
  induction l1 with
  | nil => simp [List.find?] at h
  | cons x xs ih =>
      cases hx : q x with
      | true =>
          rw [List.find?_cons_of_pos _ hx] at h
          rw [List.cons_append, List.find?_cons_of_pos _ hx]
          exact h
      | false =>
          rw [List.find?_cons_of_neg _ (by simp [hx])] at h
          rw [List.cons_append, List.find?_cons_of_neg _ (by simp [hx])]
          exact ih h

theorem find?_eq_none_of_ids {os : List Order} {oid : Nat}
    (h : ∀ x ∈ os, x.id ≠ oid) : os.find? (fun x => x.id == oid) = none := by
  rw [List.find?_eq_none]
  intro x hx
  simp [h x hx]

/-- Finding by id commutes with an id-preserving `filterMap`, given that the
ids in the list are distinct. -/
theorem find?_filterMap_idpres (g : Order → Option Order)
    (hg : ∀ x y, g x = some y → y.id = x.id) (oid : Nat) :
    ∀ os : List Order, (os.map (fun o => o.id)).Nodup →
      ∀ o : Order, os.find? (fun x => x.id == oid) = some o →
        (os.filterMap g).find? (fun x => x.id == oid) = g o := by
  intro os
  induction os with
  | nil => intro _ o h; simp [List.find?] at h
  | cons x xs ih =>
      intro hnd o h
      rw [List.map_cons, List.nodup_cons] at hnd
      obtain ⟨hx_not, hnd'⟩ := hnd
      by_cases hx : x.id = oid
      · rw [List.find?_cons_of_pos _ (by simp [hx])] at h
        obtain rfl : x = o := by injection h
        rw [List.filterMap_cons]
        cases hgx : g x with
        | some y =>
            have hy : y.id = x.id := hg _ _ hgx
            rw [List.find?_cons_of_pos _ (by simp [hy, hx])]
        | none =>
            rw [List.find?_eq_none]
            intro z hz
            rcases List.mem_filterMap.mp hz with ⟨w, hw, hgw⟩
            have hz_id : z.id = w.id := hg _ _ hgw
            have hw_ne : w.id ≠ x.id := by
              intro hcon
              exact hx_not (hcon ▸ List.mem_map_of_mem (fun o => o.id) hw)
            simp [hz_id, hx ▸ hw_ne]
      · rw [List.find?_cons_of_neg _ (by simp [hx])] at h
        rw [List.filterMap_cons]
        cases hgx : g x with
        | some y =>
            have hy : y.id = x.id := hg _ _ hgx
            rw [List.find?_cons_of_neg _ (by simp [hy, hx])]
            exact ih hnd' o h
        | none => exact ih hnd' o h

/-- Finding by id commutes with an id-preserving `map` (no distinctness
needed: elements before the hit keep failing the predicate). -/
theorem find?_map_idpres (g : Order → Order) (hg : ∀ x, (g x).id = x.id) (oid : Nat) :
    ∀ os : List Order, ∀ o : Order,
      os.find? (fun x => x.id == oid) = some o →
        (os.map g).find? (fun x => x.id == oid) = some (g o) := by
  intro os
  induction os with
  | nil => intro o h; simp [List.find?] at h
  | cons x xs ih =>
      intro o h
      by_cases hx : x.id = oid
      · rw [List.find?_cons_of_pos _ (by simp [hx])] at h
        obtain rfl : x = o := by injection h
        rw [List.map_cons, List.find?_cons_of_pos _ (by simp [hg, hx])]
      · rw [List.find?_cons_of_neg _ (by simp [hx])] at h
        rw [List.map_cons, List.find?_cons_of_neg _ (by simp [hg, hx])]
        exact ih o h

end LimitOrder

namespace LimitOrder

/-! ### `recordHistory` lemmas -/

/-- The archived log grows by one entry per call and is capped at 1000. -/
theorem recordHistory_length (h : List Order) (o : Order) :
    (recordHistory h o).length = min (h.length + 1) 1000 := by
  unfold recordHistory
  by_cases hl : 1000 < (h ++ [o]).length
  · rw [if_pos hl]
    rw [List.length_drop]
    rw [List.length_append] at hl ⊢
    simp at hl ⊢
    omega
  · rw [if_neg hl]
    rw [List.length_append] at hl ⊢
    simp at hl ⊢
    omega

/-- Eviction is FIFO: the kept log is a final segment of push order, the
oldest entries being dropped. -/
theorem recordHistory_eq_drop (h : List Order) (o : Order) :
    recordHistory h o = (h ++ [o]).drop (h.length + 1 - 1000) := by
  unfold recordHistory
  by_cases hl : 1000 < (h ++ [o]).length
  · rw [if_pos hl]
    rw [List.length_append]
    simp
  · rw [if_neg hl]
    rw [List.length_append] at hl
    simp at hl
    have hz : h.length + 1 - 1000 = 0 := by omega
    rw [hz, List.drop_zero]

/-! ### Single-order `checkOrders` lemmas -/

/-- `checkOrders` over a store holding exactly one order for the user, when
the loop iteration keeps the order and archives nothing. -/
theorem checkOrders_single_keep {asset : String} {p : ℚ} {now : Nat} {f : ExecFn}
    {o o2 : Order} {uid : String} {hist : List (String × List Order)} {n : Nat}
    (hp : processOrder asset p now f o = (some o2, none, none)) :
    checkOrders ⟨[(uid, [o])], hist, n⟩ uid asset p now f =
      ([], ⟨[(uid, [o2])], hist, n⟩) := by
  unfold checkOrders
  rw [show alookup [(uid, [o])] uid = some [o] from alookup_cons_self uid [o] []]
  simp only [List.map_cons, List.map_nil, hp, List.filterMap_cons, List.filterMap_nil]
  simp [aset]

/-- `checkOrders` over a single-order store when the iteration keeps a mutated
order and archives a snapshot (the expiration path). -/
theorem checkOrders_single_arch {asset : String} {p : ℚ} {now : Nat} {f : ExecFn}
    {o o2 o3 : Order} {uid : String} {hist : List (String × List Order)} {n : Nat}
    (hp : processOrder asset p now f o = (some o2, none, some o3)) :
    checkOrders ⟨[(uid, [o])], hist, n⟩ uid asset p now f =
      ([], ⟨[(uid, [o2])],
            aset hist uid (recordHistory ((alookup hist uid).getD []) o3), n⟩) := by
  unfold checkOrders
  rw [show alookup [(uid, [o])] uid = some [o] from alookup_cons_self uid [o] []]
  simp only [List.map_cons, List.map_nil, hp, List.filterMap_cons, List.filterMap_nil]
  simp [aset]

/-- `checkOrders` over a single-order store when the iteration fills the
order: it is deleted from the store, reported in `executed` and archived. -/
theorem checkOrders_single_fill {asset : String} {p : ℚ} {now : Nat} {f : ExecFn}
    {o : Order} {e : ExecEntry} {o3 : Order} {uid : String}
    {hist : List (String × List Order)} {n : Nat}
    (hp : processOrder asset p now f o = (none, some e, some o3)) :
    checkOrders ⟨[(uid, [o])], hist, n⟩ uid asset p now f =
      ([e], ⟨[(uid, [])],
             aset hist uid (recordHistory ((alookup hist uid).getD []) o3), n⟩) := by
  unfold checkOrders
  rw [show alookup [(uid, [o])] uid = some [o] from alookup_cons_self uid [o] []]
  simp only [List.map_cons, List.map_nil, hp, List.filterMap_cons, List.filterMap_nil]
  simp [aset]

/-! ### `applyUpdates` field lemmas -/

theorem applyUpdates_id_status (u : OrderUpdates) (now : Nat) (o : Order) :
    (applyUpdates u now o).id = o.id ∧ (applyUpdates u now o).status = o.status := by
  unfold applyUpdates
  rcases u with ⟨ulp, uam, usl, utp, uex⟩
  rcases ulp with _ | v <;> rcases uam with _ | w <;> rcases usl with _ | sl <;>
    rcases utp with _ | tp <;> rcases uex with _ | ex <;>
    constructor <;> dsimp only <;> split_ifs <;> rfl

end LimitOrder

namespace LimitOrder

/-! ### Well-formedness of a manager state

Every order id in the store is below `nextOrderId` (ids are handed out by the
increment in `createOrder`) and the ids within one user's map are distinct
(they are the map's keys).  Both hold for every state reachable from the
initial `⟨[], [], 1⟩` state through the public operations. -/

def wf (st : Manager) : Prop :=
  ∀ pr ∈ st.orders,
    (∀ o ∈ pr.2, o.id < st.nextOrderId) ∧ (pr.2.map (fun o => o.id)).Nodup

instance (st : Manager) : Decidable (wf st) := by
  unfold wf
  infer_instance

/-- The public mutating operations of the manager, one constructor per method
(`getOrder`, `getActiveOrders`, `getHistory` and `getStatistics` are pure). -/
inductive Op where
  | createOp (uid : String) (cfg : OrderConfig) (now : Nat)
  | ocoOp (uid asset : String) (amount limitPrice stopPrice : ℚ) (now : Nat)
  | trailingOp (uid asset : String) (amount : ℚ) (ta tp : Option ℚ) (now : Nat)
  | tickOp (uid asset : String) (p : ℚ) (now : Nat) (f : ExecFn)
  | cancelOp (uid : String) (oid : Nat) (now : Nat)
  | cancelAllOp (uid : String) (asset : Option String) (now : Nat)
  | updateOp (uid : String) (oid : Nat) (u : OrderUpdates) (now : Nat)

/-- State transition of one public operation. -/
def applyOp (op : Op) (st : Manager) : Manager :=
  match op with
  | Op.createOp uid cfg now => (createOrder st uid cfg now).2
  | Op.ocoOp uid asset amount limitPrice stopPrice now =>
      (createOCO st uid asset amount limitPrice stopPrice now).2
  | Op.trailingOp uid asset amount ta tp now =>
      (createTrailingStop st uid asset amount ta tp now).2
  | Op.tickOp uid asset p now f => (checkOrders st uid asset p now f).2
  | Op.cancelOp uid oid now => (cancelOrder st uid oid now).2
  | Op.cancelAllOp uid asset now => (cancelAllOrders st uid asset now).2
  | Op.updateOp uid oid u now => (updateOrder st uid oid u now).2

/-! ### Evaluation-order lemma for `checkOrders` -/

/-- The ids reported in `executed` form an order-preserving sublist of the
user's orders in map-iteration (insertion, i.e. creation) order. -/
theorem executed_ids_sublist (asset : String) (p : ℚ) (now : Nat) (f : ExecFn) :
    ∀ os : List Order,
      (((os.map (processOrder asset p now f)).filterMap (fun r => r.2.1)).map
          (fun e => e.orderId)).Sublist
        (os.map (fun o => o.id)) := by
  intro os
  induction os with
  | nil => simp
  | cons x xs ih =>
      simp only [List.map_cons, List.filterMap_cons]
      cases hx : (processOrder asset p now f x).2.1 with
      | none => exact ih.cons x.id
      | some e =>
          rw [List.map_cons, processOrder_exec_id hx]
          exact ih.cons₂ x.id

end LimitOrder

namespace LimitOrder

/-! ### C1: trailing-stop behaviour -/

/-- The state after `createTrailingStop(u, X, amount 1, trailPercent 5)` on a
fresh manager. -/
def stC1 : Manager := (createTrailingStop ⟨[], [], 1⟩ "u" "X" 1 none (some 5) 0).2

/-- The first price tick on asset X at price 200. -/
def runC1 : List ExecEntry × Manager :=
  checkOrders stC1 "u" "X" 200 1 (fun _ _ => Except.ok "tx")

/-- C1: the spec's Scenario 2 does not hold on the code.  A trailing sell stop
with `trailPercent = 5` is stored as a sell order with `limitPrice = 0` and no
code ever recomputes that price or maintains `highestPrice`, so the very first
tick (price 200) satisfies the sell limit condition `200 ≥ 0` and fills the
order at 200 with `highestPrice` still unset — instead of seeding
`highestPrice = 200`, deriving trigger 190 and not firing. -/
theorem trailingStop_fires_immediately :
    (getOrder stC1 "u" 1).map (fun o => (o.isTrailing, o.trailPercent, o.highestPrice,
        o.limitPrice, o.status)) = some (true, some 5, none, 0, OStatus.pending) ∧
    runC1.1.map (fun e => (e.orderId, e.order.status, e.order.filledPrice,
        e.order.highestPrice, e.reason)) =
      [(1, OStatus.filled, some 200, none, "Limit price reached (sell)")] ∧
    getOrder runC1.2 "u" 1 = none :=
  ⟨by decide, by decide, by decide⟩

/-! ### C2: OCO consistency -/

/-- The state after `createOCO(u, X, amount 1, limitPrice 100, stopPrice 90)`
on a fresh manager: buy order id 1 and sell stop order id 2, linked
symmetrically. -/
def stC2 : Manager := (createOCO ⟨[], [], 1⟩ "u" "X" 1 100 90 0).2

/-- A tick at price 89 on asset X. -/
def runC2 : List ExecEntry × Manager :=
  checkOrders stC2 "u" "X" 89 1 (fun _ _ => Except.ok "tx")

/-- C2: the linked pair is created symmetrically (1 ↔ 2), but `checkOrders`
contains no OCO cascade: on the tick at 89 the buy order (id 1) fills
(`89 ≤ 100`), and at the end of the same tick its linked sibling (id 2) is
still `pending` — not `cancelled` as the claim requires. -/
theorem oco_sibling_left_pending :
    (getOrder stC2 "u" 1).map (fun o => (o.linkedOrderId, o.type)) =
      some (some 2, "buy") ∧
    (getOrder stC2 "u" 2).map (fun o => (o.linkedOrderId, o.type)) =
      some (some 1, "sell") ∧
    runC2.1.map (fun e => (e.orderId, e.order.status, e.order.linkedOrderId)) =
      [(1, OStatus.filled, some 2)] ∧
    (getOrder runC2.2 "u" 2).map (fun o => o.status) = some OStatus.pending :=
  ⟨by decide, by decide, by decide, by decide⟩

end LimitOrder

namespace LimitOrder

theorem find?_append_none {α : Type} {q : α → Bool} {l1 l2 : List α}
    (h : l1.find? q = none) : (l1 ++ l2).find? q = l2.find? q := by
  induction l1 with
  | nil => simp
  | cons x xs ih =>
      cases hx : q x with
      | true =>
          rw [List.find?_cons_of_pos _ hx] at h
          simp at h
      | false =>
          rw [List.find?_cons_of_neg _ (by simp [hx])] at h
          rw [List.cons_append, List.find?_cons_of_neg _ (by simp [hx])]
          exact ih h

/-! ### C3: order creation -/

/-- C3 (amended): `createOrder` performs no validation at all — for every
state and every config (well-formed or not) it returns an order with
status `pending` carrying the fresh id `nextOrderId`, stores it (it is
retrievable though `getOrder`), the id is new (no existing order of the user
carries it), and well-formedness is preserved. -/
theorem createOrder_no_validation (st : Manager) (uid : String) (cfg : OrderConfig)
    (now : Nat) (hwf : wf st) :
    (createOrder st uid cfg now).1.status = OStatus.pending ∧
    (createOrder st uid cfg now).1.id = st.nextOrderId ∧
    getOrder (createOrder st uid cfg now).2 uid st.nextOrderId =
      some (createOrder st uid cfg now).1 ∧
    (∀ os, alookup st.orders uid = some os → ∀ x ∈ os, x.id ≠ st.nextOrderId) ∧
    wf (createOrder st uid cfg now).2 := by
  have hbound0 : ∀ x ∈ (alookup st.orders uid).getD [], x.id < st.nextOrderId := by
    cases halk : alookup st.orders uid with
    | none => simp
    | some os =>
        intro x hx
        exact (hwf (uid, os) (alookup_mem halk)).1 x hx
  have hnd0 : (((alookup st.orders uid).getD []).map (fun o => o.id)).Nodup := by
    cases halk : alookup st.orders uid with
    | none => simp
    | some os => exact (hwf (uid, os) (alookup_mem halk)).2
  refine ⟨rfl, rfl, ?_, ?_, ?_⟩
  · show (alookup (aset st.orders uid _) uid).bind _ = _
    rw [alookup_aset_self]
    show (((alookup st.orders uid).getD []) ++ [_]).find? _ = _
    rw [find?_append_none (find?_eq_none_of_ids (fun x hx => Nat.ne_of_lt (hbound0 x hx)))]
    rw [List.find?_cons_of_pos _ (by simp)]
    rfl
  · intro os halk x hx
    have : x ∈ (alookup st.orders uid).getD [] := by rw [halk]; exact hx
    exact Nat.ne_of_lt (hbound0 x this)
  · intro pr hpr
    rcases mem_aset hpr with hpr | hpr
    · subst hpr
      constructor
      · intro o ho
        rcases List.mem_append.mp ho with ho | ho
        · exact Nat.lt_succ_of_lt (hbound0 o ho)
        · rw [List.mem_singleton.mp ho]
          exact Nat.lt_succ_self _
      · rw [List.map_append, List.nodup_append]
        refine ⟨hnd0, by simp, ?_⟩
        intro a ha
        have : a < st.nextOrderId := by
          rcases List.mem_map.mp ha with ⟨o, ho, rfl⟩
          exact hbound0 o ho
        simp
        omega
    · obtain ⟨h1, h2⟩ := hwf pr hpr
      exact ⟨fun o ho => Nat.lt_succ_of_lt (h1 o ho), h2⟩

/-- An order config the spec's validation would reject: negative amount,
negative limit price, a side that is neither buy nor sell. -/
def cfgC3 : OrderConfig := ⟨"frobnicate", "X", -1, -5, none, none, none, none⟩

/-- C3 (counterexample to the claim as stated): creating an order whose
amount is not positive, whose limit price is not positive and whose side is
not buy/sell does not fail — a pending order is created and added to the
store, so creation does not reject invalid configurations. -/
theorem createOrder_accepts_invalid :
    (createOrder ⟨[], [], 1⟩ "u" cfgC3 0).1.status = OStatus.pending ∧
    (getOrder (createOrder ⟨[], [], 1⟩ "u" cfgC3 0).2 "u" 1).map
        (fun o => (o.status, o.amount, o.limitPrice, o.type)) =
      some (OStatus.pending, -1, -5, "frobnicate") :=
  ⟨by decide, by decide⟩

/-- Witness for `createOrder_no_validation` at a concrete invalid config. -/
theorem createOrder_no_validation_witness :
    wf (⟨[], [], 1⟩ : Manager) ∧
    getOrder (createOrder ⟨[], [], 1⟩ "u" cfgC3 0).2 "u" 1 =
      some (createOrder ⟨[], [], 1⟩ "u" cfgC3 0).1 :=
  ⟨by decide, (createOrder_no_validation ⟨[], [], 1⟩ "u" cfgC3 0 (by decide)).2.2.1⟩

end LimitOrder

namespace LimitOrder

/-! ### C4: execution failure -/

/-- C4 (amended): when the execution callback throws during a firing tick the
order transitions from `pending` to `failed` with the error message recorded
in `failReason`, but the error is NOT surfaced to the caller of the tick: the
returned `executed` array is empty (the source only logs the error to the
console).  No retry occurs: the state reached is a fixed point of any further
identical tick — the terminal order is skipped, whatever callback or price a
second tick uses. -/
theorem execFailure_terminal_silent (uid asset : String) (p : ℚ) (now : Nat)
    (f : ExecFn) (o : Order) (hist : List (String × List Order)) (n : Nat)
    (msg : String) (h1 : o.asset = asset) (h2 : o.status = OStatus.pending)
    (h3 : expiredNow o now = false) (h4 : shouldExec o p = true)
    (h5 : f o p = Except.error msg) :
    checkOrders ⟨[(uid, [o])], hist, n⟩ uid asset p now f =
      ([], ⟨[(uid, [failOrder o msg])], hist, n⟩) ∧
    getOrder (⟨[(uid, [failOrder o msg])], hist, n⟩ : Manager) uid o.id =
      some (failOrder o msg) ∧
    (failOrder o msg).failReason = some msg ∧
    (failOrder o msg).status = OStatus.failed ∧
    ∀ (p2 : ℚ) (now2 : Nat) (f2 : ExecFn),
      checkOrders ⟨[(uid, [failOrder o msg])], hist, n⟩ uid asset p2 now2 f2 =
        ([], ⟨[(uid, [failOrder o msg])], hist, n⟩) := by
  refine ⟨?_, ?_, rfl, rfl, ?_⟩
  · exact checkOrders_single_keep (processOrder_fire_err h1 h2 h3 h4 h5)
  · show (alookup [(uid, [failOrder o msg])] uid).bind
        (fun os => os.find? (fun x => x.id == o.id)) = _
    rw [alookup_cons_self]
    show List.find? (fun x => x.id == o.id) [failOrder o msg] = some (failOrder o msg)
    rw [List.find?_cons_of_pos _ (by simp [failOrder])]
  · intro p2 now2 f2
    exact checkOrders_single_keep
      (processOrder_stale (Or.inr (by simp [failOrder])))

/-- A concrete firing buy order for the C4 witness. -/
def oC4 : Order :=
  ⟨1, "u", "buy", "X", 1, 100, none, none, none, none, OStatus.pending, 0,
   none, none, 0, false, none, none, none, none, none, none, none⟩

/-- Witness for `execFailure_terminal_silent` at a concrete state: order
pending, condition satisfied at price 99, callback throwing "boom". -/
theorem execFailure_terminal_silent_witness :
    (oC4.status = OStatus.pending ∧ shouldExec oC4 99 = true) ∧
    checkOrders ⟨[("u", [oC4])], [], 7⟩ "u" "X" 99 1 (fun _ _ => Except.error "boom") =
      ([], ⟨[("u", [failOrder oC4 "boom"])], [], 7⟩) :=
  ⟨⟨by decide, by decide⟩,
   (execFailure_terminal_silent "u" "X" 99 1 (fun _ _ => Except.error "boom") oC4 [] 7
      "boom" rfl rfl (by decide) (by decide) rfl).1⟩

/-- The state after creating a buy limit order (limit 100) on a fresh
manager. -/
def stC4 : Manager :=
  (createOrder ⟨[], [], 1⟩ "u" ⟨"buy", "X", 1, 100, none, none, none, none⟩ 0).2

/-- The firing tick at price 99 whose execution callback throws. -/
def runC4 : List ExecEntry × Manager :=
  checkOrders stC4 "u" "X" 99 1 (fun _ _ => Except.error "boom")

/-- C4 (counterexample to the claim as stated): the order fails with the
error recorded, but the tick result reports nothing — `executed` is empty, so
the error is not surfaced to the caller. -/
theorem execFailure_not_surfaced :
    runC4.1 = [] ∧
    (getOrder runC4.2 "u" 1).map (fun o => (o.status, o.failReason)) =
      some (OStatus.failed, some "boom") :=
  ⟨by decide, by decide⟩

end LimitOrder

namespace LimitOrder

/-! ### C5: history completeness and bound -/

/-- C5 (amended): each `recordHistory` call appends exactly one entry and caps
the log at 1000 with FIFO eviction, and the terminal transitions to
`cancelled` (single cancel), `expired` and `filled` each archive exactly one
entry — but a transition to `failed` archives nothing (the source's catch
block never calls `recordHistory`). -/
theorem history_cap_fifo :
    (∀ (h : List Order) (o : Order),
        (recordHistory h o).length = min (h.length + 1) 1000) ∧
    (∀ (h : List Order) (o : Order),
        recordHistory h o = (h ++ [o]).drop (h.length + 1 - 1000)) ∧
    (∀ (st : Manager) (uid : String) (oid now : Nat) (os : List Order) (o : Order),
        alookup st.orders uid = some os →
        os.find? (fun x => x.id == oid) = some o → o.status = OStatus.pending →
        (alookup (cancelOrder st uid oid now).2.orderHistory uid).getD [] =
          recordHistory ((alookup st.orderHistory uid).getD [])
            { o with status := OStatus.cancelled, cancelledAt := some now }) ∧
    (∀ (uid asset : String) (p : ℚ) (now : Nat) (f : ExecFn) (o : Order)
        (hist : List (String × List Order)) (n t : Nat),
        o.asset = asset → o.status = OStatus.pending → o.expiresAt = some t →
        t < now →
        (alookup (checkOrders ⟨[(uid, [o])], hist, n⟩ uid asset p now f).2.orderHistory
            uid).getD [] =
          recordHistory ((alookup hist uid).getD []) (expireOrder o)) ∧
    (∀ (uid asset : String) (p : ℚ) (now : Nat) (f : ExecFn) (o : Order)
        (hist : List (String × List Order)) (n : Nat) (r : String),
        o.asset = asset → o.status = OStatus.pending → expiredNow o now = false →
        shouldExec o p = true → f o p = Except.ok r →
        (alookup (checkOrders ⟨[(uid, [o])], hist, n⟩ uid asset p now f).2.orderHistory
            uid).getD [] =
          recordHistory ((alookup hist uid).getD []) (fillOrder o p now)) ∧
    (∀ (uid asset : String) (p : ℚ) (now : Nat) (f : ExecFn) (o : Order)
        (hist : List (String × List Order)) (n : Nat) (msg : String),
        o.asset = asset → o.status = OStatus.pending → expiredNow o now = false →
        shouldExec o p = true → f o p = Except.error msg →
        (checkOrders ⟨[(uid, [o])], hist, n⟩ uid asset p now f).2.orderHistory = hist) := by
  refine ⟨recordHistory_length, recordHistory_eq_drop, ?_, ?_, ?_, ?_⟩
  · intro st uid oid now os o halk hfind hpend
    unfold cancelOrder
    rw [halk]
    dsimp only
    rw [hfind]
    dsimp only
    rw [if_neg (by simp [hpend])]
    rw [alookup_aset_self]
    rfl
  · intro uid asset p now f o hist n t h1 h2 h3 h4
    have he : expiredNow o now = true := by
      unfold expiredNow
      rw [h3]
      simpa using h4
    rw [checkOrders_single_arch (processOrder_expires h1 h2 he)]
    rw [alookup_aset_self]
    rfl
  · intro uid asset p now f o hist n r h1 h2 h3 h4 h5
    rw [checkOrders_single_fill (processOrder_fire_ok h1 h2 h3 h4 h5)]
    rw [alookup_aset_self]
    rfl
  · intro uid asset p now f o hist n msg h1 h2 h3 h4 h5
    rw [checkOrders_single_keep (processOrder_fire_err h1 h2 h3 h4 h5)]

/-- A concrete pending order for the C5 witness. -/
def oC5 : Order :=
  ⟨1, "u", "buy", "X", 1, 100, none, none, none, none, OStatus.pending, 0,
   none, none, 0, false, none, none, none, none, none, none, none⟩

/-- Witness for `history_cap_fifo`: a concrete single cancel appends exactly
one entry to the (initially empty) history. -/
theorem history_cap_fifo_witness :
    (alookup (cancelOrder ⟨[("u", [oC5])], [], 7⟩ "u" 1 3).2.orderHistory "u").getD [] =
      recordHistory [] { oC5 with status := OStatus.cancelled, cancelledAt := some 3 } :=
  history_cap_fifo.2.2.1 ⟨[("u", [oC5])], [], 7⟩ "u" 1 3 [oC5] oC5
    (by decide) (by decide) rfl

/-- The state after creating a buy limit order on a fresh manager. -/
def stC5 : Manager :=
  (createOrder ⟨[], [], 1⟩ "u" ⟨"buy", "X", 1, 100, none, none, none, none⟩ 0).2

/-- A firing tick whose execution callback throws. -/
def runC5 : List ExecEntry × Manager :=
  checkOrders stC5 "u" "X" 99 1 (fun _ _ => Except.error "rpc down")

/-- C5 (counterexample to the claim as stated): the order undergoes a
terminal transition (`pending` to `failed`), yet the owner's history log gains
no entry — it stays empty — so not every terminal transition appends an
entry. -/
theorem failed_transition_not_archived :
    (getOrder runC5.2 "u" 1).map (fun o => o.status) = some OStatus.failed ∧
    runC5.2.orderHistory = [] :=
  ⟨by decide, by decide⟩

end LimitOrder

namespace LimitOrder

/-! ### C6: active-order listing and evaluation order -/

/-- C6 (amended): `getActiveOrders` returns exactly the pending orders
(optionally filtered by asset) — a permutation of that filter — but sorted by
`createdAt` DESCENDING, not ascending; trigger evaluation on a tick instead
walks the user's map in insertion order (which is creation order), so the ids
reported in `executed` are an order-preserving sublist of the stored order
ids — the reverse of the listing order for distinct timestamps. -/
theorem listActive_desc_eval_insertion :
    (∀ (st : Manager) (uid : String) (asset : Option String),
        List.Sorted createdDesc (getActiveOrders st uid asset)) ∧
    (∀ (st : Manager) (uid : String) (asset : Option String) (os : List Order),
        alookup st.orders uid = some os →
        (getActiveOrders st uid asset).Perm
          ((os.filter (fun o => o.status == OStatus.pending)).filter
            (fun o => asset.isNone || asset == some o.asset))) ∧
    (∀ (st : Manager) (uid asset : String) (p : ℚ) (now : Nat) (f : ExecFn)
        (os : List Order), alookup st.orders uid = some os →
        (((checkOrders st uid asset p now f).1).map (fun e => e.orderId)).Sublist
          (os.map (fun o => o.id))) := by
  refine ⟨?_, ?_, ?_⟩
  · intro st uid asset
    unfold getActiveOrders
    cases halk : alookup st.orders uid with
    | none => exact List.sorted_nil
    | some os => exact List.sorted_insertionSort createdDesc _
  · intro st uid asset os halk
    unfold getActiveOrders
    rw [halk]
    exact List.perm_insertionSort createdDesc _
  · intro st uid asset p now f os halk
    unfold checkOrders
    rw [halk]
    dsimp only
    exact executed_ids_sublist asset p now f os

/-- Two buy orders on the same asset created at times 0 and 1. -/
def stC6 : Manager :=
  (createOrder
    (createOrder ⟨[], [], 1⟩ "u" ⟨"buy", "X", 1, 100, none, none, none, none⟩ 0).2
    "u" ⟨"buy", "X", 1, 100, none, none, none, none⟩ 1).2

/-- C6 (counterexample to the claim as stated): with two pending orders
created at times 0 and 1, `getActiveOrders` lists the newer order first —
`createdAt` descending, not ascending. -/
theorem listActive_not_ascending :
    (getActiveOrders stC6 "u" none).map (fun o => (o.id, o.createdAt)) =
      [(2, 1), (1, 0)] := by
  decide

/-- Witness for `listActive_desc_eval_insertion` at the concrete two-order
state: both orders fire on the tick at 99 and are reported in creation order
1, 2. -/
theorem listActive_desc_eval_insertion_witness :
    List.Sorted createdDesc (getActiveOrders stC6 "u" none) ∧
    (getActiveOrders stC6 "u" none).Perm
      ((((alookup stC6.orders "u").getD []).filter
          (fun o => o.status == OStatus.pending)).filter
        (fun o => (none : Option String).isNone || none == some o.asset)) ∧
    (((checkOrders stC6 "u" "X" 99 2 (fun _ _ => Except.ok "tx")).1).map
        (fun e => e.orderId)).Sublist
      (((alookup stC6.orders "u").getD []).map (fun o => o.id)) :=
  ⟨listActive_desc_eval_insertion.1 stC6 "u" none,
   listActive_desc_eval_insertion.2.1 stC6 "u" none _ (by decide),
   listActive_desc_eval_insertion.2.2 stC6 "u" "X" 99 2 (fun _ _ => Except.ok "tx") _
     (by decide)⟩

end LimitOrder

namespace LimitOrder

/-! ### C7: stop-loss trigger -/

/-- C7 (amended): a pending sell order with `stopLoss` set fires on a tick
with `price ≤ stopLoss` only under the additional precondition that the order
carries a `currentPrice` snapshot (set from `config.currentPrice` at
creation): the source guards the stop-loss check with
`order.stopLoss && order.currentPrice`.  With the snapshot present (and the
order not expired, the callback succeeding) the order fills at the tick
price and is removed from the store. -/
theorem stopLoss_requires_snapshot (uid asset : String) (p : ℚ) (now : Nat)
    (f : ExecFn) (o : Order) (hist : List (String × List Order)) (n : Nat)
    (sl c : ℚ) (r : String) (h1 : o.asset = asset) (h2 : o.status = OStatus.pending)
    (h3 : o.type = "sell") (h4 : o.stopLoss = some sl) (h5 : o.currentPrice = some c)
    (h6 : p ≤ sl) (h7 : expiredNow o now = false) (h8 : f o p = Except.ok r) :
    checkOrders ⟨[(uid, [o])], hist, n⟩ uid asset p now f =
      ([⟨o.id, fillOrder o p now, execReason o p, r⟩],
       ⟨[(uid, [])],
        aset hist uid (recordHistory ((alookup hist uid).getD []) (fillOrder o p now)),
        n⟩) ∧
    (fillOrder o p now).status = OStatus.filled ∧
    (fillOrder o p now).filledPrice = some p ∧
    (fillOrder o p now).filledAmount = o.amount ∧
    getOrder (checkOrders ⟨[(uid, [o])], hist, n⟩ uid asset p now f).2 uid o.id =
      none := by
  have hse : shouldExec o p = true := by
    have hstop : stopCond o p = true := by
      unfold stopCond
      rw [h4, h5]
      simp [h3, h6]
    unfold shouldExec
    rw [hstop]
    simp
  have hrun := @checkOrders_single_fill asset p now f o _ _ uid hist n
    (processOrder_fire_ok h1 h2 h7 hse h8)
  refine ⟨hrun, rfl, rfl, rfl, ?_⟩
  rw [hrun]
  show (alookup [(uid, ([] : List Order))] uid).bind
      (fun os => os.find? (fun x => x.id == o.id)) = none
  rw [alookup_cons_self]
  rfl

/-- A concrete pending sell order carrying both a stop-loss and a
`currentPrice` snapshot, for the C7 witness. -/
def oC7 : Order :=
  ⟨1, "u", "sell", "X", 1, 1000, some 120, some 90, none, none, OStatus.pending, 0,
   none, none, 0, false, none, none, none, none, none, none, none⟩

/-- Witness for `stopLoss_requires_snapshot`: the concrete order fires at
price 80 ≤ stopLoss 90 and is deleted from the store. -/
theorem stopLoss_requires_snapshot_witness :
    (oC7.status = OStatus.pending ∧ oC7.stopLoss = some 90 ∧
      oC7.currentPrice = some 120 ∧ (80 : ℚ) ≤ 90) ∧
    getOrder (checkOrders ⟨[("u", [oC7])], [], 9⟩ "u" "X" 80 1
        (fun _ _ => Except.ok "tx")).2 "u" 1 = none :=
  ⟨⟨by decide, by decide, by decide, by decide⟩,
   (stopLoss_requires_snapshot "u" "X" 80 1 (fun _ _ => Except.ok "tx") oC7 [] 9
      90 120 "tx" rfl rfl rfl rfl rfl (by decide) (by decide) rfl).2.2.2.2⟩

/-- The state after creating a sell order with `stopLoss = 90` but no
`currentPrice` in its config (limit 1000 so the sell limit condition cannot
fire at low prices). -/
def stC7 : Manager :=
  (createOrder ⟨[], [], 1⟩ "u" ⟨"sell", "X", 1, 1000, none, some 90, none, none⟩ 0).2

/-- The tick at price 80 ≤ stopLoss 90. -/
def runC7 : List ExecEntry × Manager :=
  checkOrders stC7 "u" "X" 80 1 (fun _ _ => Except.ok "tx")

/-- C7 (counterexample to the claim as stated): a pending sell order with
`stopLoss = 90` sees a tick at 80 on its asset and does NOT fire — nothing is
executed and the order stays pending — because its `currentPrice` field is
null, which the source's guard requires. -/
theorem stopLoss_without_snapshot_no_fire :
    runC7.1 = [] ∧
    (getOrder runC7.2 "u" 1).map (fun o => (o.status, o.stopLoss)) =
      some (OStatus.pending, some 90) :=
  ⟨by decide, by decide⟩

end LimitOrder

namespace LimitOrder

/-! ### C8: what happens to terminal orders in the store -/

/-- C8 (amended): terminal orders are not uniformly retained.  A successful
single cancel archives the cancelled snapshot but physically deletes the
order from the store (`getOrder` then returns none), and a fill does the
same; only expired and failed orders remain retrievable from the store with
their terminal status. -/
theorem terminal_store_retention :
    (∀ (st : Manager) (uid : String) (oid now : Nat) (os : List Order) (o : Order),
        alookup st.orders uid = some os →
        os.find? (fun x => x.id == oid) = some o → o.status = OStatus.pending →
        (cancelOrder st uid oid now).1 = true ∧
        getOrder (cancelOrder st uid oid now).2 uid oid = none) ∧
    (∀ (uid asset : String) (p : ℚ) (now : Nat) (f : ExecFn) (o : Order)
        (hist : List (String × List Order)) (n : Nat) (r : String),
        o.asset = asset → o.status = OStatus.pending → expiredNow o now = false →
        shouldExec o p = true → f o p = Except.ok r →
        getOrder (checkOrders ⟨[(uid, [o])], hist, n⟩ uid asset p now f).2 uid o.id =
          none) ∧
    (∀ (uid asset : String) (p : ℚ) (now : Nat) (f : ExecFn) (o : Order)
        (hist : List (String × List Order)) (n t : Nat),
        o.asset = asset → o.status = OStatus.pending → o.expiresAt = some t →
        t < now →
        getOrder (checkOrders ⟨[(uid, [o])], hist, n⟩ uid asset p now f).2 uid o.id =
          some (expireOrder o)) ∧
    (∀ (uid asset : String) (p : ℚ) (now : Nat) (f : ExecFn) (o : Order)
        (hist : List (String × List Order)) (n : Nat) (msg : String),
        o.asset = asset → o.status = OStatus.pending → expiredNow o now = false →
        shouldExec o p = true → f o p = Except.error msg →
        getOrder (checkOrders ⟨[(uid, [o])], hist, n⟩ uid asset p now f).2 uid o.id =
          some (failOrder o msg)) := by
  refine ⟨?_, ?_, ?_, ?_⟩
  · intro st uid oid now os o halk hfind hpend
    unfold cancelOrder
    rw [halk]
    dsimp only
    rw [hfind]
    dsimp only
    rw [if_neg (by simp [hpend])]
    refine ⟨rfl, ?_⟩
    show (alookup (aset st.orders uid (deleteById os oid)) uid).bind
        (fun l => l.find? (fun x => x.id == oid)) = none
    rw [alookup_aset_self]
    show (deleteById os oid).find? (fun x => x.id == oid) = none
    apply find?_eq_none_of_ids
    intro x hx
    rcases List.mem_filterMap.mp hx with ⟨y, _, hgy⟩
    by_cases hy : y.id = oid
    · rw [if_pos (by simp [hy])] at hgy
      simp at hgy
    · rw [if_neg (by simp [hy])] at hgy
      obtain rfl : y = x := by injection hgy
      exact hy
  · intro uid asset p now f o hist n r h1 h2 h3 h4 h5
    rw [checkOrders_single_fill (processOrder_fire_ok h1 h2 h3 h4 h5)]
    show (alookup [(uid, ([] : List Order))] uid).bind
        (fun os => os.find? (fun x => x.id == o.id)) = none
    rw [alookup_cons_self]
    rfl
  · intro uid asset p now f o hist n t h1 h2 h3 h4
    have he : expiredNow o now = true := by
      unfold expiredNow
      rw [h3]
      simpa using h4
    rw [checkOrders_single_arch (processOrder_expires h1 h2 he)]
    show (alookup [(uid, [expireOrder o])] uid).bind
        (fun os => os.find? (fun x => x.id == o.id)) = some (expireOrder o)
    rw [alookup_cons_self]
    show List.find? (fun x => x.id == o.id) [expireOrder o] = some (expireOrder o)
    rw [List.find?_cons_of_pos _ (by simp [expireOrder])]
  · intro uid asset p now f o hist n msg h1 h2 h3 h4 h5
    rw [checkOrders_single_keep (processOrder_fire_err h1 h2 h3 h4 h5)]
    show (alookup [(uid, [failOrder o msg])] uid).bind
        (fun os => os.find? (fun x => x.id == o.id)) = some (failOrder o msg)
    rw [alookup_cons_self]
    show List.find? (fun x => x.id == o.id) [failOrder o msg] = some (failOrder o msg)
    rw [List.find?_cons_of_pos _ (by simp [failOrder])]

/-- A concrete pending order for the C8 witness. -/
def oC8 : Order :=
  ⟨1, "u", "buy", "X", 1, 100, none, none, none, none, OStatus.pending, 0,
   none, none, 0, false, none, none, none, none, none, none, none⟩

/-- Witness for `terminal_store_retention`: cancelling the concrete pending
order succeeds and deletes it from the store. -/
theorem terminal_store_retention_witness :
    (cancelOrder ⟨[("u", [oC8])], [], 5⟩ "u" 1 3).1 = true ∧
    getOrder (cancelOrder ⟨[("u", [oC8])], [], 5⟩ "u" 1 3).2 "u" 1 = none :=
  terminal_store_retention.1 ⟨[("u", [oC8])], [], 5⟩ "u" 1 3 [oC8] oC8
    (by decide) (by decide) rfl

/-- The state after creating a buy limit order on a fresh manager. -/
def stC8 : Manager :=
  (createOrder ⟨[], [], 1⟩ "u" ⟨"buy", "X", 1, 100, none, none, none, none⟩ 0).2

/-- C8 (counterexample to the claim as stated): after a single
owner-initiated cancel, `getOrder` no longer returns the terminal order — the
store physically deleted it, contradicting "get still returns the terminal
order" after a single cancel. -/
theorem cancelled_not_retrievable :
    (cancelOrder stC8 "u" 1 1).1 = true ∧
    getOrder (cancelOrder stC8 "u" 1 1).2 "u" 1 = none :=
  ⟨by decide, by decide⟩

end LimitOrder

namespace LimitOrder

/-! ### C9: expiration pre-empts execution -/

/-- C9 (confirmed): the expiration check is the first thing the tick loop
does for a matching pending order.  If `expiresAt` is set and in the past the
order goes straight to `expired`: the result of the loop iteration does not
depend on the price or on the execution callback (both are universally
quantified and absent from the right-hand side), nothing is pushed to
`executed`, the expired order is archived, stays in the store with status
`expired`, and its fill fields are untouched. -/
theorem expiration_preempts_execution (asset : String) (p : ℚ) (now : Nat)
    (f : ExecFn) (o : Order) (t : Nat) (h1 : o.asset = asset)
    (h2 : o.status = OStatus.pending) (h3 : o.expiresAt = some t) (h4 : t < now) :
    processOrder asset p now f o = (some (expireOrder o), none, some (expireOrder o)) ∧
    (expireOrder o).status = OStatus.expired ∧
    (expireOrder o).filledPrice = o.filledPrice ∧
    (expireOrder o).filledAt = o.filledAt ∧
    ∀ (uid : String) (hist : List (String × List Order)) (n : Nat),
      (checkOrders ⟨[(uid, [o])], hist, n⟩ uid asset p now f).1 = [] ∧
      getOrder (checkOrders ⟨[(uid, [o])], hist, n⟩ uid asset p now f).2 uid o.id =
        some (expireOrder o) := by
  have he : expiredNow o now = true := by
    unfold expiredNow
    rw [h3]
    simpa using h4
  have hpo := @processOrder_expires asset p now f o h1 h2 he
  refine ⟨hpo, rfl, rfl, rfl, ?_⟩
  intro uid hist n
  rw [checkOrders_single_arch hpo]
  refine ⟨rfl, ?_⟩
  show (alookup [(uid, [expireOrder o])] uid).bind
      (fun os => os.find? (fun x => x.id == o.id)) = some (expireOrder o)
  rw [alookup_cons_self]
  show List.find? (fun x => x.id == o.id) [expireOrder o] = some (expireOrder o)
  rw [List.find?_cons_of_pos _ (by simp [expireOrder])]

/-- A concrete pending order whose `expiresAt = 5` is already past at the
tick time 10. -/
def oC9 : Order :=
  ⟨1, "u", "buy", "X", 1, 100, none, none, none, some 5, OStatus.pending, 0,
   none, none, 0, false, none, none, none, none, none, none, none⟩

/-- Witness for `expiration_preempts_execution` at a concrete expired order:
the tick at a price that satisfies the limit condition still only expires
the order and executes nothing. -/
theorem expiration_preempts_execution_witness :
    (oC9.status = OStatus.pending ∧ oC9.expiresAt = some 5 ∧ 5 < 10) ∧
    (checkOrders ⟨[("u", [oC9])], [], 4⟩ "u" "X" 50 10
        (fun _ _ => Except.ok "tx")).1 = [] :=
  ⟨⟨by decide, by decide, by decide⟩,
   ((expiration_preempts_execution "X" 50 10 (fun _ _ => Except.ok "tx") oC9 5
      rfl rfl rfl (by decide)).2.2.2.2 "u" [] 4).1⟩

end LimitOrder

namespace LimitOrder

/-! ### State-shape lemmas for the public operations -/

theorem createOrder_snd_orders (st : Manager) (uid : String) (cfg : OrderConfig)
    (now : Nat) :
    (createOrder st uid cfg now).2.orders =
      aset st.orders uid
        (((alookup st.orders uid).getD []) ++ [(createOrder st uid cfg now).1]) := rfl

theorem createOrder_snd_hist (st : Manager) (uid : String) (cfg : OrderConfig)
    (now : Nat) :
    (createOrder st uid cfg now).2.orderHistory = st.orderHistory := rfl

theorem checkOrders_snd_none (st : Manager) (uid asset : String) (p : ℚ) (now : Nat)
    (f : ExecFn) (halk : alookup st.orders uid = none) :
    (checkOrders st uid asset p now f).2 = st := by
  unfold checkOrders
  rw [halk]

theorem checkOrders_snd_orders (st : Manager) (uid asset : String) (p : ℚ) (now : Nat)
    (f : ExecFn) (os : List Order) (halk : alookup st.orders uid = some os) :
    (checkOrders st uid asset p now f).2.orders =
      aset st.orders uid (os.filterMap (fun x => (processOrder asset p now f x).1)) := by
  unfold checkOrders
  rw [halk]
  dsimp only
  rw [List.filterMap_map]
  rfl

theorem cancelOrder_snd_no_user (st : Manager) (uid : String) (oid now : Nat)
    (halk : alookup st.orders uid = none) : (cancelOrder st uid oid now).2 = st := by
  unfold cancelOrder
  rw [halk]

theorem cancelOrder_snd_no_order (st : Manager) (uid : String) (oid now : Nat)
    (os : List Order) (halk : alookup st.orders uid = some os)
    (hfind : os.find? (fun x => x.id == oid) = none) :
    (cancelOrder st uid oid now).2 = st := by
  unfold cancelOrder
  rw [halk]
  dsimp only
  rw [hfind]

theorem cancelOrder_snd_not_pending (st : Manager) (uid : String) (oid now : Nat)
    (os : List Order) (o : Order) (halk : alookup st.orders uid = some os)
    (hfind : os.find? (fun x => x.id == oid) = some o)
    (hterm : o.status ≠ OStatus.pending) : (cancelOrder st uid oid now).2 = st := by
  unfold cancelOrder
  rw [halk]
  dsimp only
  rw [hfind]
  dsimp only
  rw [if_pos hterm]

theorem cancelOrder_snd_orders (st : Manager) (uid : String) (oid now : Nat)
    (os : List Order) (o : Order) (halk : alookup st.orders uid = some os)
    (hfind : os.find? (fun x => x.id == oid) = some o)
    (hpend : o.status = OStatus.pending) :
    (cancelOrder st uid oid now).2.orders = aset st.orders uid (deleteById os oid) := by
  unfold cancelOrder
  rw [halk]
  dsimp only
  rw [hfind]
  dsimp only
  rw [if_neg (by simp [hpend])]

theorem cancelAllOrders_snd_none (st : Manager) (uid : String) (asset : Option String)
    (now : Nat) (halk : alookup st.orders uid = none) :
    (cancelAllOrders st uid asset now).2 = st := by
  unfold cancelAllOrders
  rw [halk]

theorem cancelAllOrders_snd_orders (st : Manager) (uid : String)
    (asset : Option String) (now : Nat) (os : List Order)
    (halk : alookup st.orders uid = some os) :
    (cancelAllOrders st uid asset now).2.orders =
      aset st.orders uid
        (os.filterMap (fun x => if cancelTarget asset x then none else some x)) := by
  unfold cancelAllOrders
  rw [halk]

theorem updateOrder_snd_none (st : Manager) (uid : String) (oid : Nat)
    (u : OrderUpdates) (now : Nat) (hget : getOrder st uid oid = none) :
    (updateOrder st uid oid u now).2 = st := by
  unfold updateOrder
  rw [hget]

theorem updateOrder_snd_not_pending (st : Manager) (uid : String) (oid : Nat)
    (u : OrderUpdates) (now : Nat) (o : Order) (hget : getOrder st uid oid = some o)
    (hterm : o.status ≠ OStatus.pending) : (updateOrder st uid oid u now).2 = st := by
  unfold updateOrder
  rw [hget]
  dsimp only
  rw [if_pos hterm]

theorem updateOrder_snd_orders (st : Manager) (uid : String) (oid : Nat)
    (u : OrderUpdates) (now : Nat) (o : Order) (hget : getOrder st uid oid = some o)
    (hpend : o.status = OStatus.pending) :
    (updateOrder st uid oid u now).2.orders =
      aset st.orders uid
        (((alookup st.orders uid).getD []).map
          (fun x => if x.id == oid then applyUpdates u now o else x)) := by
  unfold updateOrder
  rw [hget]
  dsimp only
  rw [if_neg (by simp [hpend])]

end LimitOrder

namespace LimitOrder

/-- Look up that reduces `getOrder` once the user's list is known. -/
theorem getOrder_eq (st : Manager) (uid : String) (oid : Nat) (os : List Order)
    (halk : alookup st.orders uid = some os) :
    getOrder st uid oid = os.find? (fun x => x.id == oid) := by
  show (alookup st.orders uid).bind (fun l => l.find? (fun x => x.id == oid)) = _
  rw [halk]
  rfl

/-- With distinct ids, two members of a user's list with the same id are the
same order. -/
theorem eq_of_mem_of_id_eq {os : List Order}
    (hnd : (os.map (fun x => x.id)).Nodup) {x y : Order} (hx : x ∈ os) (hy : y ∈ os)
    (hid : x.id = y.id) : x = y :=
  List.inj_on_of_nodup_map hnd hx hy hid

theorem createOCO_snd_orders (st : Manager) (uid asset : String) (am lp sp : ℚ)
    (now : Nat) :
    (createOCO st uid asset am lp sp now).2.orders =
      aset (createOrder (createOrder st uid ⟨"buy", asset, am, lp, none, none, none, none⟩ now).2
              uid ⟨"sell", asset, am, sp, none, some sp, none, none⟩ now).2.orders uid
        (((alookup (createOrder (createOrder st uid ⟨"buy", asset, am, lp, none, none, none, none⟩ now).2
              uid ⟨"sell", asset, am, sp, none, some sp, none, none⟩ now).2.orders uid).getD []).map
          (fun x =>
            if x.id == st.nextOrderId then
              { (createOrder st uid ⟨"buy", asset, am, lp, none, none, none, none⟩ now).1 with
                  linkedOrderId := some (st.nextOrderId + 1) }
            else if x.id == st.nextOrderId + 1 then
              { (createOrder (createOrder st uid ⟨"buy", asset, am, lp, none, none, none, none⟩ now).2
                  uid ⟨"sell", asset, am, sp, none, some sp, none, none⟩ now).1 with
                  linkedOrderId := some st.nextOrderId }
            else x)) := rfl

theorem createTrailingStop_snd_orders (st : Manager) (uid asset : String)
    (amount : ℚ) (ta tp : Option ℚ) (now : Nat) :
    (createTrailingStop st uid asset amount ta tp now).2.orders =
      aset (createOrder st uid ⟨"sell", asset, amount, 0, none, none, none, none⟩ now).2.orders uid
        (((alookup (createOrder st uid ⟨"sell", asset, amount, 0, none, none, none, none⟩ now).2.orders
              uid).getD []).map
          (fun x =>
            if x.id == st.nextOrderId then
              { (createOrder st uid ⟨"sell", asset, amount, 0, none, none, none, none⟩ now).1 with
                  isTrailing := true
                  trailAmount := truthyQ ta
                  trailPercent := truthyQ tp
                  highestPrice := (none : Option ℚ) }
            else x)) := rfl

end LimitOrder

namespace LimitOrder

/-! ### Named per-order transformations (proof plumbing for the operations) -/

/-- The per-order effect of `Map.delete` inside `cancelOrder`. -/
def delFn (oid : Nat) (x : Order) : Option Order :=
  if x.id == oid then none else some x

/-- The per-order effect of the `cancelAllOrders` loop on the stored list. -/
def keepFn (asset : Option String) (x : Order) : Option Order :=
  if cancelTarget asset x then none else some x

/-- The per-order effect of the `checkOrders` loop on the stored list. -/
def tickFn (asset : String) (p : ℚ) (now : Nat) (f : ExecFn) (x : Order) :
    Option Order :=
  (processOrder asset p now f x).1

/-- The mutation `createOCO` applies to the user's list: link the two fresh
orders, leave everything else alone. -/
def linkFn (i1 i2 : Nat) (y1 y2 : Order) (x : Order) : Order :=
  if x.id == i1 then y1 else if x.id == i2 then y2 else x

/-- The mutation `updateOrder` and `createTrailingStop` apply to the user's
list: replace the order with the given id. -/
def setFn (i : Nat) (y : Order) (x : Order) : Order :=
  if x.id == i then y else x

theorem linkFn_id (i1 i2 : Nat) (y1 y2 : Order) (hy1 : y1.id = i1)
    (hy2 : y2.id = i2) : ∀ x, (linkFn i1 i2 y1 y2 x).id = x.id := by
  intro x
  unfold linkFn
  by_cases h1 : x.id = i1
  · rw [if_pos (by simp [h1]), hy1, h1]
  · rw [if_neg (by simp [h1])]
    by_cases h2 : x.id = i2
    · rw [if_pos (by simp [h2]), hy2, h2]
    · rw [if_neg (by simp [h2])]

theorem linkFn_skip (i1 i2 : Nat) (y1 y2 : Order) (x : Order) (h1 : x.id ≠ i1)
    (h2 : x.id ≠ i2) : linkFn i1 i2 y1 y2 x = x := by
  unfold linkFn
  rw [if_neg (by simp [h1]), if_neg (by simp [h2])]

theorem setFn_id (i : Nat) (y : Order) (hy : y.id = i) :
    ∀ x, (setFn i y x).id = x.id := by
  intro x
  unfold setFn
  by_cases h1 : x.id = i
  · rw [if_pos (by simp [h1]), hy, h1]
  · rw [if_neg (by simp [h1])]

theorem setFn_skip (i : Nat) (y : Order) (x : Order) (h : x.id ≠ i) :
    setFn i y x = x := by
  unfold setFn
  rw [if_neg (by simp [h])]

/-- Decomposition of a successful `getOrder`. -/
theorem getOrder_inv {st : Manager} {uid : String} {oid : Nat} {o : Order}
    (h : getOrder st uid oid = some o) :
    ∃ os, alookup st.orders uid = some os ∧
      os.find? (fun x => x.id == oid) = some o := by
  cases halk : alookup st.orders uid with
  | none =>
      exfalso
      have hnone : getOrder st uid oid = none := by
        show (alookup st.orders uid).bind (fun l => l.find? (fun x => x.id == oid)) = none
        rw [halk]
        rfl
      rw [hnone] at h
      exact Option.noConfusion h
  | some os =>
      refine ⟨os, rfl, ?_⟩
      rw [getOrder_eq st uid oid os halk] at h
      exact h

/-- `createOCO` only mutates the two freshly created orders: any order
retrievable before is retrievable unchanged afterwards (well-formedness gives
that its id is below `nextOrderId`, hence distinct from both fresh ids). -/
theorem createOCO_getOrder_old (st : Manager) (uid0 asset0 : String)
    (am lp sp : ℚ) (now : Nat) (hwf : wf st) (uid : String) (oid : Nat) (o : Order)
    (h : getOrder st uid oid = some o) :
    getOrder (createOCO st uid0 asset0 am lp sp now).2 uid oid = some o := by
  obtain ⟨os, halk, hfind⟩ := getOrder_inv h
  have hmem : o ∈ os := List.mem_of_find?_eq_some hfind
  have holt : o.id < st.nextOrderId := (hwf (uid, os) (alookup_mem halk)).1 o hmem
  by_cases hu : uid0 = uid
  · subst hu
    have halkA : alookup (createOrder st uid0 ⟨"buy", asset0, am, lp, none, none,
        none, none⟩ now).2.orders uid0 =
        some (os ++ [(createOrder st uid0 ⟨"buy", asset0, am, lp, none, none,
          none, none⟩ now).1]) := by
      rw [createOrder_snd_orders, alookup_aset_self, halk]
      rfl
    have halkB : alookup (createOrder (createOrder st uid0 ⟨"buy", asset0, am, lp,
        none, none, none, none⟩ now).2 uid0 ⟨"sell", asset0, am, sp, none, some sp,
        none, none⟩ now).2.orders uid0 =
        some ((os ++ [(createOrder st uid0 ⟨"buy", asset0, am, lp, none, none,
            none, none⟩ now).1]) ++
          [(createOrder (createOrder st uid0 ⟨"buy", asset0, am, lp, none, none,
            none, none⟩ now).2 uid0 ⟨"sell", asset0, am, sp, none, some sp, none,
            none⟩ now).1]) := by
      rw [createOrder_snd_orders, alookup_aset_self, halkA]
      rfl
    have halkC : alookup (createOCO st uid0 asset0 am lp sp now).2.orders uid0 =
        some (((os ++ [(createOrder st uid0 ⟨"buy", asset0, am, lp, none, none,
            none, none⟩ now).1]) ++
          [(createOrder (createOrder st uid0 ⟨"buy", asset0, am, lp, none, none,
            none, none⟩ now).2 uid0 ⟨"sell", asset0, am, sp, none, some sp, none,
            none⟩ now).1]).map
          (linkFn st.nextOrderId (st.nextOrderId + 1)
            { (createOrder st uid0 ⟨"buy", asset0, am, lp, none, none, none,
                none⟩ now).1 with linkedOrderId := some (st.nextOrderId + 1) }
            { (createOrder (createOrder st uid0 ⟨"buy", asset0, am, lp, none, none,
                none, none⟩ now).2 uid0 ⟨"sell", asset0, am, sp, none, some sp,
                none, none⟩ now).1 with linkedOrderId := some st.nextOrderId })) := by
      rw [createOCO_snd_orders, alookup_aset_self, halkB]
      rfl
    rw [getOrder_eq _ uid0 oid _ halkC]
    refine Eq.trans (find?_map_idpres _ ?_ oid _ o
      (find?_append_some (find?_append_some hfind))) ?_
    · exact linkFn_id _ _ _ _ rfl rfl
    · exact congrArg some (linkFn_skip _ _ _ _ _ (by omega) (by omega))
  · have halkC : alookup (createOCO st uid0 asset0 am lp sp now).2.orders uid =
        some os := by
      rw [createOCO_snd_orders, alookup_aset_ne hu, createOrder_snd_orders,
        alookup_aset_ne hu, createOrder_snd_orders, alookup_aset_ne hu, halk]
    rw [getOrder_eq _ uid oid os halkC]
    exact hfind

/-- `createTrailingStop` only mutates the freshly created order: any order
retrievable before is retrievable unchanged afterwards. -/
theorem createTrailingStop_getOrder_old (st : Manager) (uid0 asset0 : String)
    (am : ℚ) (ta tp : Option ℚ) (now : Nat) (hwf : wf st) (uid : String)
    (oid : Nat) (o : Order) (h : getOrder st uid oid = some o) :
    getOrder (createTrailingStop st uid0 asset0 am ta tp now).2 uid oid = some o := by
  obtain ⟨os, halk, hfind⟩ := getOrder_inv h
  have hmem : o ∈ os := List.mem_of_find?_eq_some hfind
  have holt : o.id < st.nextOrderId := (hwf (uid, os) (alookup_mem halk)).1 o hmem
  by_cases hu : uid0 = uid
  · subst hu
    have halkA : alookup (createOrder st uid0 ⟨"sell", asset0, am, 0, none, none,
        none, none⟩ now).2.orders uid0 =
        some (os ++ [(createOrder st uid0 ⟨"sell", asset0, am, 0, none, none,
          none, none⟩ now).1]) := by
      rw [createOrder_snd_orders, alookup_aset_self, halk]
      rfl
    have halkB : alookup (createTrailingStop st uid0 asset0 am ta tp now).2.orders uid0 =
        some ((os ++ [(createOrder st uid0 ⟨"sell", asset0, am, 0, none, none,
            none, none⟩ now).1]).map
          (setFn st.nextOrderId
            { (createOrder st uid0 ⟨"sell", asset0, am, 0, none, none, none,
                none⟩ now).1 with
                isTrailing := true
                trailAmount := truthyQ ta
                trailPercent := truthyQ tp
                highestPrice := (none : Option ℚ) })) := by
      rw [createTrailingStop_snd_orders, alookup_aset_self, halkA]
      rfl
    rw [getOrder_eq _ uid0 oid _ halkB]
    refine Eq.trans (find?_map_idpres _ ?_ oid _ o (find?_append_some hfind)) ?_
    · exact setFn_id _ _ rfl
    · exact congrArg some (setFn_skip _ _ _ (by omega))
  · have halkB : alookup (createTrailingStop st uid0 asset0 am ta tp now).2.orders uid =
        some os := by
      rw [createTrailingStop_snd_orders, alookup_aset_ne hu, createOrder_snd_orders,
        alookup_aset_ne hu, halk]
    rw [getOrder_eq _ uid oid os halkB]
    exact hfind

end LimitOrder

namespace LimitOrder

/-! ### C10: status monotonicity -/

/-- C10 (confirmed): on a well-formed state (ids unique and below
`nextOrderId`), no public operation touches an order that is already terminal
— it remains retrievable, completely unchanged — and whenever an order is
retrievable before and after an operation, its status either is unchanged or
moved from `pending` to a non-pending (terminal) status.  Together with the
deletion lemmas (a fill or cancel removes the order), the observable status
sequence of any stored order is `pending` followed by at most one terminal
value. -/
theorem status_monotone (op : Op) (st : Manager) (hwf : wf st) (uid : String)
    (oid : Nat) (o : Order) (h : getOrder st uid oid = some o) :
    (o.status ≠ OStatus.pending → getOrder (applyOp op st) uid oid = some o) ∧
    (∀ o2, getOrder (applyOp op st) uid oid = some o2 →
      o2.status = o.status ∨
        (o.status = OStatus.pending ∧ o2.status ≠ OStatus.pending)) := by
  obtain ⟨os, halk, hfind⟩ := getOrder_inv h
  have hoid : o.id = oid := by
    have h0 := List.find?_some hfind
    simpa using h0
  have hmem : o ∈ os := List.mem_of_find?_eq_some hfind
  have hwfu := hwf (uid, os) (alookup_mem halk)
  have hbound : ∀ x ∈ os, x.id < st.nextOrderId := hwfu.1
  have hnd : (os.map (fun x => x.id)).Nodup := hwfu.2
  have holt : o.id < st.nextOrderId := hbound o hmem
  have finish_same : ∀ st2 : Manager, getOrder st2 uid oid = some o →
      (o.status ≠ OStatus.pending → getOrder st2 uid oid = some o) ∧
      (∀ o2, getOrder st2 uid oid = some o2 →
        o2.status = o.status ∨
          (o.status = OStatus.pending ∧ o2.status ≠ OStatus.pending)) := by
    intro st2 key
    refine ⟨fun _ => key, fun o2 h2 => ?_⟩
    rw [key] at h2
    injection h2 with h2
    rw [← h2]
    exact Or.inl rfl
  have key_other : ∀ st2 : Manager, alookup st2.orders uid = some os →
      getOrder st2 uid oid = some o := by
    intro st2 halk2
    rw [getOrder_eq st2 uid oid os halk2]
    exact hfind
  have conclude_g : ∀ (st2 : Manager) (g : Order → Option Order),
      alookup st2.orders uid = some (os.filterMap g) →
      (∀ x y, g x = some y → y.id = x.id) →
      (∀ y, g o = some y → y.status = o.status ∨
          (o.status = OStatus.pending ∧ y.status ≠ OStatus.pending)) →
      (o.status ≠ OStatus.pending → g o = some o) →
      (o.status ≠ OStatus.pending → getOrder st2 uid oid = some o) ∧
      (∀ o2, getOrder st2 uid oid = some o2 →
        o2.status = o.status ∨
          (o.status = OStatus.pending ∧ o2.status ≠ OStatus.pending)) := by
    intro st2 g halk2 hg hstat hterm
    have key : getOrder st2 uid oid = g o := by
      rw [getOrder_eq st2 uid oid _ halk2]
      exact find?_filterMap_idpres g hg oid os hnd o hfind
    refine ⟨fun ht => by rw [key, hterm ht], fun o2 h2 => ?_⟩
    rw [key] at h2
    exact hstat o2 h2
  cases op with
  | createOp uid0 cfg now =>
      simp only [applyOp]
      by_cases hu : uid0 = uid
      · subst hu
        apply finish_same
        have halk2 : alookup (createOrder st uid0 cfg now).2.orders uid0 =
            some (os ++ [(createOrder st uid0 cfg now).1]) := by
          rw [createOrder_snd_orders, alookup_aset_self, halk]
          rfl
        rw [getOrder_eq _ uid0 oid _ halk2]
        exact find?_append_some hfind
      · apply finish_same
        apply key_other
        rw [createOrder_snd_orders, alookup_aset_ne hu, halk]
  | ocoOp uid0 asset0 am lp sp now =>
      simp only [applyOp]
      exact finish_same _ (createOCO_getOrder_old st uid0 asset0 am lp sp now hwf uid oid o h)
  | trailingOp uid0 asset0 am ta tp now =>
      simp only [applyOp]
      exact finish_same _
        (createTrailingStop_getOrder_old st uid0 asset0 am ta tp now hwf uid oid o h)
  | tickOp uid0 asset0 p now f =>
      simp only [applyOp]
      cases halk0 : alookup st.orders uid0 with
      | none =>
          rw [checkOrders_snd_none st uid0 asset0 p now f halk0]
          exact finish_same st h
      | some os0 =>
          by_cases hu : uid0 = uid
          · subst hu
            have hos : os0 = os := by
              rw [halk0] at halk
              injection halk
            subst hos
            refine conclude_g _ (tickFn asset0 p now f) ?_ ?_ ?_ ?_
            · rw [checkOrders_snd_orders st uid0 asset0 p now f os0 halk0,
                alookup_aset_self]
              rfl
            · intro x y hxy
              exact (processOrder_keep hxy).1
            · intro y hy
              rcases (processOrder_keep hy).2 with h3 | ⟨h3, h4⟩
              · exact Or.inl h3
              · refine Or.inr ⟨h3, ?_⟩
                rcases h4 with h4 | h4 <;> rw [h4] <;> decide
            · intro ht
              show (processOrder asset0 p now f o).1 = some o
              rw [processOrder_stale (Or.inr ht)]
          · apply finish_same
            apply key_other
            rw [checkOrders_snd_orders st uid0 asset0 p now f os0 halk0,
              alookup_aset_ne hu, halk]
  | cancelOp uid0 oid0 now =>
      simp only [applyOp]
      cases halk0 : alookup st.orders uid0 with
      | none =>
          rw [cancelOrder_snd_no_user st uid0 oid0 now halk0]
          exact finish_same st h
      | some os0 =>
          cases hfind0 : os0.find? (fun x => x.id == oid0) with
          | none =>
              rw [cancelOrder_snd_no_order st uid0 oid0 now os0 halk0 hfind0]
              exact finish_same st h
          | some t =>
              by_cases htp : t.status = OStatus.pending
              · by_cases hu : uid0 = uid
                · subst hu
                  have hos : os0 = os := by
                    rw [halk0] at halk
                    injection halk
                  subst hos
                  have ht_id : t.id = oid0 := by
                    have h0 := List.find?_some hfind0
                    simpa using h0
                  refine conclude_g _ (delFn oid0) ?_ ?_ ?_ ?_
                  · rw [cancelOrder_snd_orders st uid0 oid0 now os0 t halk0 hfind0 htp,
                      alookup_aset_self]
                    rfl
                  · intro x y hxy
                    unfold delFn at hxy
                    by_cases hx : x.id = oid0
                    · rw [if_pos (by simp [hx])] at hxy
                      exact absurd hxy (by simp)
                    · rw [if_neg (by simp [hx])] at hxy
                      injection hxy with e
                      rw [← e]
                  · intro y hy
                    unfold delFn at hy
                    by_cases hx : o.id = oid0
                    · rw [if_pos (by simp [hx])] at hy
                      exact absurd hy (by simp)
                    · rw [if_neg (by simp [hx])] at hy
                      injection hy with e
                      rw [← e]
                      exact Or.inl rfl
                  · intro ht
                    have hne : o.id ≠ oid0 := by
                      intro hcon
                      have hto : t = o :=
                        eq_of_mem_of_id_eq hnd (List.mem_of_find?_eq_some hfind0) hmem
                          (by rw [ht_id, hcon])
                      rw [hto] at htp
                      exact ht htp
                    unfold delFn
                    rw [if_neg (by simp [hne])]
                · apply finish_same
                  apply key_other
                  rw [cancelOrder_snd_orders st uid0 oid0 now os0 t halk0 hfind0 htp,
                    alookup_aset_ne hu, halk]
              · rw [cancelOrder_snd_not_pending st uid0 oid0 now os0 t halk0 hfind0 htp]
                exact finish_same st h
  | cancelAllOp uid0 asset0 now =>
      simp only [applyOp]
      cases halk0 : alookup st.orders uid0 with
      | none =>
          rw [cancelAllOrders_snd_none st uid0 asset0 now halk0]
          exact finish_same st h
      | some os0 =>
          by_cases hu : uid0 = uid
          · subst hu
            have hos : os0 = os := by
              rw [halk0] at halk
              injection halk
            subst hos
            refine conclude_g _ (keepFn asset0) ?_ ?_ ?_ ?_
            · rw [cancelAllOrders_snd_orders st uid0 asset0 now os0 halk0,
                alookup_aset_self]
              rfl
            · intro x y hxy
              unfold keepFn at hxy
              by_cases hx : cancelTarget asset0 x = true
              · rw [if_pos hx] at hxy
                exact absurd hxy (by simp)
              · rw [if_neg hx] at hxy
                injection hxy with e
                rw [← e]
            · intro y hy
              unfold keepFn at hy
              by_cases hx : cancelTarget asset0 o = true
              · rw [if_pos hx] at hy
                exact absurd hy (by simp)
              · rw [if_neg hx] at hy
                injection hy with e
                rw [← e]
                exact Or.inl rfl
            · intro ht
              have hx : cancelTarget asset0 o ≠ true := by
                unfold cancelTarget
                simp [ht]
              unfold keepFn
              rw [if_neg hx]
          · apply finish_same
            apply key_other
            rw [cancelAllOrders_snd_orders st uid0 asset0 now os0 halk0,
              alookup_aset_ne hu, halk]
  | updateOp uid0 oid0 u now =>
      simp only [applyOp]
      cases hget0 : getOrder st uid0 oid0 with
      | none =>
          rw [updateOrder_snd_none st uid0 oid0 u now hget0]
          exact finish_same st h
      | some t =>
          by_cases htp : t.status = OStatus.pending
          · by_cases hu : uid0 = uid
            · subst hu
              have hfind0 : os.find? (fun x => x.id == oid0) = some t := by
                rw [getOrder_eq st uid0 oid0 os halk] at hget0
                exact hget0
              have ht_id : t.id = oid0 := by
                have h0 := List.find?_some hfind0
                simpa using h0
              have key : getOrder (updateOrder st uid0 oid0 u now).2 uid0 oid =
                  some (setFn oid0 (applyUpdates u now t) o) := by
                have halk2 : alookup (updateOrder st uid0 oid0 u now).2.orders uid0 =
                    some (os.map (setFn oid0 (applyUpdates u now t))) := by
                  rw [updateOrder_snd_orders st uid0 oid0 u now t hget0 htp,
                    alookup_aset_self, halk]
                  rfl
                rw [getOrder_eq _ uid0 oid _ halk2]
                refine find?_map_idpres _ ?_ oid _ o hfind
                refine setFn_id oid0 _ ?_
                rw [(applyUpdates_id_status u now t).1, ht_id]
              have hstat : (setFn oid0 (applyUpdates u now t) o).status = o.status := by
                unfold setFn
                by_cases hx : o.id = oid0
                · rw [if_pos (by simp [hx])]
                  have hto : t = o :=
                    eq_of_mem_of_id_eq hnd (List.mem_of_find?_eq_some hfind0) hmem
                      (by rw [ht_id, hx])
                  rw [(applyUpdates_id_status u now t).2, hto]
                · rw [if_neg (by simp [hx])]
              refine ⟨fun ht => ?_, fun o2 h2 => ?_⟩
              · rw [key]
                have hne : o.id ≠ oid0 := by
                  intro hcon
                  have hto : t = o :=
                    eq_of_mem_of_id_eq hnd (List.mem_of_find?_eq_some hfind0) hmem
                      (by rw [ht_id, hcon])
                  rw [hto] at htp
                  exact ht htp
                rw [setFn_skip _ _ _ hne]
              · rw [key] at h2
                injection h2 with h2
                rw [← h2]
                exact Or.inl hstat
            · apply finish_same
              apply key_other
              rw [updateOrder_snd_orders st uid0 oid0 u now t hget0 htp]
              rw [alookup_aset_ne hu]
              exact halk
          · rw [updateOrder_snd_not_pending st uid0 oid0 u now t hget0 htp]
            exact finish_same st h

/-- A concrete well-formed state holding one terminal (failed) order, plus a
pending one, for the C10 witness. -/
def oC10a : Order :=
  ⟨1, "u", "buy", "X", 1, 100, none, none, none, none, OStatus.failed, 0,
   none, none, 0, false, none, none, none, none, some "boom", none, none⟩

def oC10b : Order :=
  ⟨2, "u", "buy", "X", 1, 100, none, none, none, none, OStatus.pending, 1,
   none, none, 0, false, none, none, none, none, none, none, none⟩

def stC10 : Manager := ⟨[("u", [oC10a, oC10b])], [], 3⟩

/-- Witness for `status_monotone`: a cancel-all sweep leaves the concrete
already-failed order untouched and retrievable. -/
theorem status_monotone_witness :
    wf stC10 ∧
    getOrder (applyOp (Op.cancelAllOp "u" none 9) stC10) "u" 1 = some oC10a :=
  ⟨by decide,
   (status_monotone (Op.cancelAllOp "u" none 9) stC10 (by decide) "u" 1 oC10a
      (by decide)).1 (by decide)⟩

end LimitOrder
